import Mathlib

/-!
Shallow embedding of the diff-to-comment-position reconciliation and
comment-thread synchronization engine of `src/view/treeNodes/pullRequestNode.ts`.

The data model (DiffLine, DiffHunk, Comment, CommentThread, file-change
variants) follows the source and the repository spec.  Functions defined in
`pullRequestNode.ts` itself are translated from that file; the handful of
helpers it imports from modules that are not part of this source snapshot
(`groupBy`, `getZeroBased`, `getAbsolutePosition`, `getPositionInDiff`,
`mapHeadLineToDiffHunkPosition`, `fromPRUri`, `formatError`) are modelled from
the spec, each marked as such in its doc comment.
-/

/-! ## Data model -/

/-- Change kind of one physical diff line (DiffChangeType in common/diffHunk). -/
inductive DiffChangeType where
  | Context
  | Add
  | Delete
  | Control
  deriving DecidableEq, Repr

/-- One physical line inside a hunk.  `oldLineNumber` is `-1` for add lines and
`newLineNumber` is `-1` for delete lines (the line is absent on that side);
`position` is the 1-based diff-relative wire position of the line. -/
structure DiffLine where
  type : DiffChangeType
  oldLineNumber : Int
  newLineNumber : Int
  position : Int
  text : String
  deriving DecidableEq, Repr

/-- An ordered block of diff lines with its old/new extents. -/
structure DiffHunk where
  oldLineNumber : Int
  oldLength : Int
  newLineNumber : Int
  newLength : Int
  diffLines : List DiffLine
  deriving DecidableEq, Repr

/-- File change status (GitChangeType in common/file). -/
inductive GitChangeType where
  | ADD
  | COPY
  | DELETE
  | MODIFY
  | RENAME
  deriving DecidableEq, Repr

/-- Author identity of a review comment. -/
structure User where
  login : String
  avatarUrl : String
  deriving DecidableEq, Repr

/-- A reaction attached to a raw review comment. -/
structure Reaction where
  label : String
  viewerHasReacted : Bool
  deriving DecidableEq, Repr

/-- A raw review comment as fetched from the remote host (Comment in
common/comment).  `position` is the nullable diff-relative position. -/
structure Comment where
  id : Int
  position : Option Int
  body : String
  path : String
  commitId : String
  pullRequestReviewId : Int
  user : User
  canEdit : Bool
  canDelete : Bool
  isDraft : Bool
  reactions : List Reaction
  deriving DecidableEq, Repr

/-- Parameters carried by a pr-scheme document uri (PRUriParams in common/uri). -/
structure PRUriParams where
  fileName : String
  isBase : Bool
  prNumber : Int
  baseCommit : String
  deriving DecidableEq, Repr

/-- A document uri.  `prParams` holds the query parameters of a pr-scheme uri. -/
structure Uri where
  scheme : String
  path : String
  prParams : Option PRUriParams := none
  deriving DecidableEq, Repr

/-- A text document handed to the comment provider. -/
structure TextDocument where
  uri : Uri
  lineCount : Int
  deriving DecidableEq, Repr

/-- Display state of a comment thread (vscode.CommentThreadCollapsibleState). -/
inductive CommentThreadCollapsibleState where
  | Expanded
  | Collapsed
  deriving DecidableEq, Repr

/-- A reaction in presentation form (produced by providePRDocumentComments). -/
structure CommentReaction where
  label : String
  hasReacted : Bool
  deriving DecidableEq, Repr

/-- A comment in presentation form (vscode.Comment).  `body` models the
MarkdownString value. -/
structure VSComment where
  commentId : String
  body : String
  userName : String
  gravatar : String
  canEdit : Bool
  canDelete : Bool
  isDraft : Bool
  commentReactions : List CommentReaction := []
  deriving DecidableEq, Repr

/-- A rectangular document range, as the four-number vscode.Range constructor. -/
structure VSRange where
  startLine : Int
  startCharacter : Int
  endLine : Int
  endCharacter : Int
  deriving DecidableEq, Repr

/-- A derived comment thread (vscode.CommentThread).  `collapsibleState` is
optional because createNewCommentThread builds threads without one. -/
structure CommentThread where
  threadId : String
  resource : Uri
  range : VSRange
  comments : List VSComment
  collapsibleState : Option CommentThreadCollapsibleState := none
  deriving DecidableEq, Repr

/-- An in-memory file change: full diff hunks plus the mutable comment list
(InMemFileChangeNode in view/treeNodes/fileChangeNode). -/
structure InMemFileChange where
  status : GitChangeType
  fileName : String
  previousFileName : Option String
  filePath : Uri
  parentFilePath : Uri
  isPartial : Bool
  patch : String
  diffHunks : List DiffHunk
  comments : List Comment
  deriving DecidableEq, Repr

/-- A file change node: either a metadata-only remote change or an in-memory
change with hunks and comments. -/
inductive FileChangeNode where
  | remote (fileName : String) (blobUrl : String)
  | inMem (fileChange : InMemFileChange)
  deriving DecidableEq, Repr

/-- File name of either file-change variant. -/
def fileNameOf : FileChangeNode → String
  | .remote fileName _ => fileName
  | .inMem fileChange => fileChange.fileName

/-- Result record of providePRDocumentComments (vscode.CommentInfo). -/
structure CommentInfo where
  threads : List CommentThread
  commentingRanges : List VSRange
  inDraftMode : Bool
  deriving DecidableEq, Repr

/-! ## Helpers modelled from the spec

The functions in this section are imported by `pullRequestNode.ts` from
modules that are not part of this source snapshot; they are modelled from the
spec's description of the Position Mapper and of the narrow interfaces. -/

/-- Modelled from the spec: `groupBy` from `common/utils` (not under src/).
Collects the elements of a list into per-key groups, exactly as the
JavaScript reduce over an object does: one group per distinct key, keys in
first-occurrence order, each group holding its elements in arrival order. -/
def insertGrouped {α : Type} {κ : Type} [BEq κ] (k : κ) (el : α) :
    List (κ × List α) → List (κ × List α)
  | [] => [(k, [el])]
  | p :: rest => if p.1 == k then (p.1, p.2 ++ [el]) :: rest else p :: insertGrouped k el rest

/-- Modelled from the spec: `groupBy` from `common/utils` (not under src/),
see `insertGrouped`. -/
def groupBy {α : Type} {κ : Type} [BEq κ] (key : α → κ) (arr : List α) : List (κ × List α) :=
  arr.foldl (fun result el => insertGrouped (key el) el result) []

/-- Modelled from the spec: `getZeroBased` from `common/diffPositionMapping`
(not under src/): converts a 1-based line number to 0-based; values at most 0
map to 0. -/
def getZeroBased (line : Int) : Int :=
  if line ≤ 0 then 0 else line - 1

/-- Modelled from the spec: `getAbsolutePosition` from
`common/diffPositionMapping` (not under src/): forward-maps a comment's
diff-relative position to the absolute line of the matching diff line on the
requested side, walking the hunks in order; selects the old line number for
the base side and the new line number otherwise; returns a negative sentinel
when the comment has no position or no hunk line carries that position. -/
def getAbsolutePosition (comment : Comment) (diffHunks : List DiffHunk) (isBase : Bool) : Int :=
  match comment.position with
  | none => -1
  | some pos =>
    match (diffHunks.flatMap DiffHunk.diffLines).find? (fun l => l.position == pos) with
    | none => -1
    | some l => if isBase then l.oldLineNumber else l.newLineNumber

/-- Modelled from the spec: `getPositionInDiff` from
`common/diffPositionMapping` (not under src/): for a document whose content is
the rendered diff itself, the comment's line is its diff-relative position
translated into the rendered index — position minus one, the hunk header
lines being part of the same numbering; negative sentinel when the comment has
no position. -/
def getPositionInDiff (comment : Comment) (_diffHunks : List DiffHunk) (_isBase : Bool) : Int :=
  match comment.position with
  | none => -1
  | some pos => pos - 1

/-- Modelled from the spec: `mapHeadLineToDiffHunkPosition` from
`common/diffPositionMapping` (not under src/): reverse-maps an absolute line
to the diff-relative wire position by scanning the hunks in order for the diff
line whose old (base side) or new (head side) line number equals the target;
negative sentinel when no hunk line carries that absolute line. -/
def mapHeadLineToDiffHunkPosition (diffHunks : List DiffHunk) (_localPath : String)
    (line : Int) (isBase : Bool) : Int :=
  match (diffHunks.flatMap DiffHunk.diffLines).find?
      (fun l => (if isBase then l.oldLineNumber else l.newLineNumber) == line) with
  | none => -1
  | some l => l.position

/-- Modelled from the spec: `fromPRUri` from `common/uri` (not under src/):
yields the PR parameters encoded in a pr-scheme uri, none for any other uri. -/
def fromPRUri (uri : Uri) : Option PRUriParams :=
  if uri.scheme == "pr" then uri.prParams else none

/-- Modelled from the spec: `formatError` from `common/utils` (not under
src/): produces the user-facing message string for an error; modelled as the
identity on the message. -/
def formatError (e : String) : String := e

/-! ## Comment Thread Grouper (from pullRequestNode.ts) -/

/-- Conversion of a raw comment to presentation form as written inline in
commentsToCommentThreads (no reactions). -/
def convertComment (comment : Comment) : VSComment :=
  { commentId := toString comment.id
    body := comment.body
    userName := comment.user.login
    gravatar := comment.user.avatarUrl
    canEdit := comment.canEdit
    canDelete := comment.canDelete
    isDraft := comment.isDraft
    commentReactions := [] }

/-- Conversion of a raw comment to presentation form as written inline in
providePRDocumentComments (reactions included). -/
def convertCommentWithReactions (comment : Comment) : VSComment :=
  { commentId := toString comment.id
    body := comment.body
    userName := comment.user.login
    gravatar := comment.user.avatarUrl
    canEdit := comment.canEdit
    canDelete := comment.canDelete
    isDraft := comment.isDraft
    commentReactions := comment.reactions.map (fun reaction =>
      { label := reaction.label, hasReacted := reaction.viewerHasReacted }) }

/-- Translation of commentsToCommentThreads (pullRequestNode.ts, lines
120-159).  Comments are grouped by their diff position (the JavaScript code
keys the groups by the string form of the position, which distinguishes
positions exactly as grouping by the position value itself does); each group's
anchor is resolved from its first comment, groups resolving to a negative line
are dropped, surviving groups become one thread each. -/
def commentsToCommentThreads (fileChange : InMemFileChange) (comments : List Comment)
    (isBase : Bool) : List CommentThread :=
  let sections := groupBy (fun comment => comment.position) comments
  sections.filterMap (fun sec =>
    match sec.2 with
    | [] => none
    | firstComment :: _ =>
      let commentAbsolutePosition :=
        if fileChange.isPartial then
          getPositionInDiff firstComment fileChange.diffHunks isBase
        else
          getAbsolutePosition firstComment fileChange.diffHunks isBase
      if commentAbsolutePosition < 0 then none
      else some
        { threadId := toString firstComment.id
          resource := if isBase then fileChange.parentFilePath else fileChange.filePath
          range :=
            { startLine := getZeroBased commentAbsolutePosition, startCharacter := 0
              endLine := getZeroBased commentAbsolutePosition, endCharacter := 0 }
          comments := sec.2.map convertComment
          collapsibleState := some .Expanded })

/-- Translation of providePRDocumentComments (pullRequestNode.ts, lines
23-118): gate on the uri parameters and the matching in-memory file change,
compute the commenting ranges (whole document when the change is partial, one
range per hunk otherwise), then group the file's comments into threads. -/
def providePRDocumentComments (document : TextDocument) (prNumber : Int)
    (fileChanges : List FileChangeNode) (inDraftMode : Bool) : Option CommentInfo :=
  match fromPRUri document.uri with
  | none => none
  | some params =>
    if params.prNumber ≠ prNumber then none
    else
      match fileChanges.find? (fun change => fileNameOf change == params.fileName) with
      | none => none
      | some (.remote _ _) => none
      | some (.inMem fileChange) =>
        let isBase := params.isBase
        let commentingRanges : List VSRange :=
          if fileChange.isPartial then
            [{ startLine := 0, startCharacter := 0,
               endLine := document.lineCount, endCharacter := 0 }]
          else
            fileChange.diffHunks.map (fun diffHunk =>
              let startingLine :=
                if isBase then getZeroBased diffHunk.oldLineNumber
                else getZeroBased diffHunk.newLineNumber
              let length :=
                if isBase then getZeroBased diffHunk.oldLength
                else getZeroBased diffHunk.newLength
              { startLine := startingLine, startCharacter := 0,
                endLine := startingLine + length, endCharacter := 0 })
        let matchingComments := fileChange.comments
        if matchingComments.isEmpty then
          some { threads := [], commentingRanges := commentingRanges, inDraftMode := inDraftMode }
        else
          let sections := groupBy (fun comment => comment.position) matchingComments
          let threads := sections.filterMap (fun sec =>
            match sec.2 with
            | [] => none
            | firstComment :: _ =>
              let commentAbsolutePosition :=
                if fileChange.isPartial then
                  getPositionInDiff firstComment fileChange.diffHunks isBase
                else
                  getAbsolutePosition firstComment fileChange.diffHunks isBase
              if commentAbsolutePosition < 0 then none
              else some
                { threadId := toString firstComment.id
                  resource := document.uri
                  range :=
                    { startLine := getZeroBased commentAbsolutePosition, startCharacter := 0
                      endLine := getZeroBased commentAbsolutePosition, endCharacter := 0 }
                  comments := sec.2.map convertCommentWithReactions
                  collapsibleState := some .Expanded })
          some { threads := threads, commentingRanges := commentingRanges,
                 inDraftMode := inDraftMode }

/-! ## Thread Reconciler (from pullRequestNode.ts) -/

/-- Translation of getRemovedCommentThreads (lines 161-172): old threads whose
identity matches no new thread. -/
def getRemovedCommentThreads (oldCommentThreads newCommentThreads : List CommentThread) :
    List CommentThread :=
  oldCommentThreads.filter (fun thread =>
    (newCommentThreads.filter (fun newThread => newThread.threadId == thread.threadId)).isEmpty)

/-- Translation of commentsEditedInThread (lines 178-191): some old member has
no unique counterpart among the new members, or its unique counterpart has a
different body. -/
def commentsEditedInThread (oldComments newComments : List VSComment) : Bool :=
  oldComments.any (fun oldComment =>
    match newComments.filter (fun newComment => newComment.commentId == oldComment.commentId) with
    | [matchingComment] => matchingComment.body != oldComment.body
    | _ => true)

/-- Translation of getAddedOrUpdatedCommentThreads (lines 174-213), returning
the pair (added, changed).  A new thread with no identity match among the old
threads is added (collapsed when its resource is a plain file); for each
identity match, the thread is reported changed when the member count differs
or commentsEditedInThread holds against the first match. -/
def getAddedOrUpdatedCommentThreads (oldCommentThreads newCommentThreads : List CommentThread) :
    List CommentThread × List CommentThread :=
  newCommentThreads.foldl (fun acc thread =>
    let matchingCommentThread :=
      oldCommentThreads.filter (fun oldThread => oldThread.threadId == thread.threadId)
    match matchingCommentThread with
    | [] =>
      let addedThread :=
        if thread.resource.scheme == "file" then
          { thread with collapsibleState := some .Collapsed }
        else thread
      (acc.1 ++ [addedThread], acc.2)
    | firstMatch :: _ =>
      (acc.1,
        matchingCommentThread.foldl (fun changed m =>
          if m.comments.length != thread.comments.length
              || commentsEditedInThread firstMatch.comments thread.comments then
            changed ++ [thread]
          else changed) acc.2))
    ([], [])

/-! ## Content reconstruction (from PRNode.provideDocumentContent) -/

/-- The base-side line texts kept by provideDocumentContent's left loop (lines
449-467): delete and context lines, add and control lines skipped. -/
def leftLines (diffHunks : List DiffHunk) : List String :=
  diffHunks.foldl (fun left diffHunk =>
    diffHunk.diffLines.foldl (fun left diffLine =>
      match diffLine.type with
      | .Add => left
      | .Delete => left ++ [diffLine.text]
      | .Control => left
      | .Context => left ++ [diffLine.text]) left) []

/-- The head-side line texts kept by provideDocumentContent's right loop
(lines 468-486): add and context lines, delete and control lines skipped. -/
def rightLines (diffHunks : List DiffHunk) : List String :=
  diffHunks.foldl (fun right diffHunk =>
    diffHunk.diffLines.foldl (fun right diffLine =>
      match diffLine.type with
      | .Add => right ++ [diffLine.text]
      | .Delete => right
      | .Control => right
      | .Context => right ++ [diffLine.text]) right) []

/-- Translation of PRNode.provideDocumentContent (lines 437-501).  The git
show of the original content and getModifiedContentFromDiffHunk (patch
application, common/diffHunk, not under src/) are passed as oracles. -/
def provideDocumentContent (showAtCommit : String → String → String)
    (getModifiedContentFromDiffHunk : String → String → String)
    (repositoryRootPath : String) (fileChanges : List FileChangeNode) (uri : Uri) : String :=
  match fromPRUri uri with
  | none => ""
  | some params =>
    match fileChanges.filter (fun contentChange =>
        match contentChange with
        | .inMem fc => fc.fileName == params.fileName
        | .remote _ _ => false) with
    | .inMem fileChange :: _ =>
      let readContentFromDiffHunk :=
        fileChange.isPartial || fileChange.status == GitChangeType.ADD
          || fileChange.status == GitChangeType.DELETE
      if readContentFromDiffHunk then
        if params.isBase then
          String.intercalate "\n" (leftLines fileChange.diffHunks)
        else
          String.intercalate "\n" (rightLines fileChange.diffHunks)
      else
        let originalFileName :=
          if fileChange.status == GitChangeType.RENAME then
            fileChange.previousFileName.getD ""
          else fileChange.fileName
        let originalFilePath := repositoryRootPath ++ "/" ++ originalFileName
        let originalContent := showAtCommit params.baseCommit originalFilePath
        if params.isBase then originalContent
        else getModifiedContentFromDiffHunk originalContent fileChange.patch
    | _ => ""

/-! ## Comment operations (from PRNode) -/

/-- Translation of PRNode.findMatchingFileNode (lines 503-521). -/
def findMatchingFileNode (fileChanges : List FileChangeNode) (uri : Uri) :
    Except String InMemFileChange :=
  match fromPRUri uri with
  | none => .error "is not valid PR document"
  | some params =>
    match fileChanges.find? (fun change => fileNameOf change == params.fileName) with
    | none => .error "No matching file found"
    | some (.remote _ _) => .error "Comments not supported on remote file changes"
    | some (.inMem fileChange) => .ok fileChange

/-- Replacement of the comment list of the first file change with the given
name, modelling in-place mutation of the node found by findMatchingFileNode. -/
def setComments (fileName : String) (comments : List Comment) :
    List FileChangeNode → List FileChangeNode
  | [] => []
  | node :: rest =>
    if fileNameOf node == fileName then
      (match node with
       | .inMem fileChange => .inMem { fileChange with comments := comments }
       | .remote a b => .remote a b) :: rest
    else node :: setComments fileName comments rest

/-- Translation of PRNode.editComment (lines 568-581); the remote edit call is
the oracle.  Returns the new file-change list and the error surfaced, if any. -/
def editComment (fileChanges : List FileChangeNode) (uri : Uri) (commentId : String)
    (text : String) (editReviewComment : Comment → String → Comment) :
    List FileChangeNode × Option String :=
  match findMatchingFileNode fileChanges uri with
  | .error e => (fileChanges, some e)
  | .ok fileChange =>
    match fileChange.comments.find? (fun c => toString c.id == commentId) with
    | none => (fileChanges, some "Unable to find comment")
    | some existingComment =>
      let rawComment := editReviewComment existingComment text
      match fileChange.comments.findIdx? (fun c => toString c.id == commentId) with
      | none => (fileChanges, none)
      | some index =>
        (setComments fileChange.fileName (fileChange.comments.set index rawComment) fileChanges,
         none)

/-- Translation of PRNode.deleteComment (lines 583-601); the remote delete is
fire-and-forget for the local state.  Returns the new file-change list and the
error surfaced, if any. -/
def deleteComment (fileChanges : List FileChangeNode) (uri : Uri) (commentId : String) :
    List FileChangeNode × Option String :=
  match findMatchingFileNode fileChanges uri with
  | .error e => (fileChanges, some e)
  | .ok fileChange =>
    match fileChange.comments.findIdx? (fun c => toString c.id == commentId) with
    | none => (fileChanges, none)
    | some index =>
      (setComments fileChange.fileName (fileChange.comments.eraseIdx index) fileChanges, none)

/-- Translation of PRNode.replyToCommentThread (lines 603-629); the remote
reply call is the oracle.  Returns the new file-change list, the error
surfaced if any, and the updated thread returned to the caller. -/
def replyToCommentThread (fileChanges : List FileChangeNode) (uri : Uri)
    (thread : CommentThread) (text : String) (createCommentReply : String → Comment → Comment) :
    List FileChangeNode × Option String × Option CommentThread :=
  match findMatchingFileNode fileChanges uri with
  | .error e => (fileChanges, some (formatError e), none)
  | .ok fileChange =>
    match fileChange.comments.find? (fun c => toString c.id == thread.threadId) with
    | none => (fileChanges, some (formatError "Unable to find thread to respond to."), none)
    | some commentFromThread =>
      let rawComment := createCommentReply text commentFromThread
      (setComments fileChange.fileName (fileChange.comments ++ [rawComment]) fileChanges,
       none,
       some { thread with comments := thread.comments ++ [convertComment rawComment] })

/-- Translation of PRNode.createNewCommentThread (lines 523-566); the remote
create call is the oracle.  Returns the new file-change list and either the
surfaced error, or the created thread (none when the uri belongs to another
pull request, as the source returns null there). -/
def createNewCommentThread (prNumber : Int) (fileChanges : List FileChangeNode)
    (document : TextDocument) (range : VSRange) (text : String)
    (createComment : String → String → Int → Comment) :
    List FileChangeNode × Except String (Option CommentThread) :=
  match fromPRUri document.uri with
  | some params =>
    if params.prNumber ≠ prNumber then (fileChanges, .ok none)
    else
      match findMatchingFileNode fileChanges document.uri with
      | .error e => (fileChanges, .error (formatError e))
      | .ok fileChange =>
        let isBase := params.isBase
        let position :=
          mapHeadLineToDiffHunkPosition fileChange.diffHunks "" (range.startLine + 1) isBase
        if position < 0 then
          (fileChanges, .error (formatError "Comment position cannot be negative"))
        else
          let rawComment := createComment text params.fileName position
          let comment := convertComment rawComment
          (setComments fileChange.fileName (fileChange.comments ++ [rawComment]) fileChanges,
           .ok (some { threadId := comment.commentId
                       resource := document.uri
                       range := range
                       comments := [comment]
                       collapsibleState := none }))
  | none =>
    -- with no uri parameters the source reaches findMatchingFileNode, which throws
    (fileChanges, .error (formatError "is not valid PR document"))

/-! ## Draft deletion (from PRNode) -/

/-- Translation of PRNode.calculateChangedAndRemovedThreads (lines 673-683),
returning the pair (changed, removed): each thread of the current grouping is
stripped of the deleted comments; a thread left empty is reported removed,
a thread with surviving members is reported changed. -/
def calculateChangedAndRemovedThreads (fileChange : InMemFileChange)
    (deletedComments : List Comment) (isBase : Bool) :
    List CommentThread × List CommentThread :=
  let oldCommentThreads := commentsToCommentThreads fileChange fileChange.comments isBase
  oldCommentThreads.foldl (fun acc thread =>
    let survivors := thread.comments.filter (fun comment =>
      !(deletedComments.any (fun deletedComment =>
        toString deletedComment.id == comment.commentId)))
    if survivors.isEmpty then (acc.1, acc.2 ++ [{ thread with comments := survivors }])
    else (acc.1 ++ [{ thread with comments := survivors }], acc.2)) ([], [])

/-- Translation of the pure core of PRNode.deleteDraft (lines 685-713): group
the deleted review's comments by path, and for each matching in-memory file
change report the changed/removed threads of both sides and drop the deleted
review's comments from the file's comment list. -/
def deleteDraft (fileChanges : List FileChangeNode) (deletedReviewId : Int)
    (deletedReviewComments : List Comment) :
    List FileChangeNode × List CommentThread × List CommentThread :=
  let commentsByPath := groupBy (fun comment => comment.path) deletedReviewComments
  commentsByPath.foldl (fun acc sec =>
    match acc.1.find? (fun fileChange => fileNameOf fileChange == sec.1) with
    | some (.inMem matchingFileChange) =>
      let resBase := calculateChangedAndRemovedThreads matchingFileChange sec.2 true
      let resHead := calculateChangedAndRemovedThreads matchingFileChange sec.2 false
      (setComments matchingFileChange.fileName
         (matchingFileChange.comments.filter (fun comment =>
           comment.pullRequestReviewId != deletedReviewId)) acc.1,
       acc.2.1 ++ resBase.1 ++ resHead.1,
       acc.2.2 ++ resBase.2 ++ resHead.2)
    | _ => acc) (fileChanges, [], [])

/-- The filter applied when PRNode.getChildren attaches the fetched comments
to a file change (line 272): only comments of this file that are anchored to a
line (non-null position) are kept. -/
def fileCommentsFilter (comments : List Comment) (fileName : String) : List Comment :=
  comments.filter (fun comment => comment.path == fileName && comment.position.isSome)

/-! ## Claim-side definitions (stated from the spec's words) -/

/-- Distinct keys of a list in first-occurrence order. -/
def firstKeys {α : Type} {κ : Type} [BEq κ] (key : α → κ) : List α → List κ
  | [] => []
  | a :: rest => key a :: (firstKeys key rest).filter (fun k => !(k == key a))

/-- The Comment Thread Grouper contract as the spec states it (section 4.4):
partition the comments by diff position; for each partition, in arrival order,
resolve the anchor line from the partition's first comment (getPositionInDiff
for a partial file change, getAbsolutePosition otherwise); drop the whole
partition when the resolved line is negative; otherwise build one thread keyed
by the first comment's identity whose members are the full partition in
arrival order. -/
def commentThreadsSpec (fileChange : InMemFileChange) (comments : List Comment)
    (isBase : Bool) : List CommentThread :=
  (firstKeys (fun comment => comment.position) comments).filterMap (fun pos =>
    match comments.filter (fun comment => comment.position == pos) with
    | [] => none
    | firstComment :: rest =>
      let anchor :=
        if fileChange.isPartial then
          getPositionInDiff firstComment fileChange.diffHunks isBase
        else
          getAbsolutePosition firstComment fileChange.diffHunks isBase
      if anchor < 0 then none
      else some
        { threadId := toString firstComment.id
          resource := if isBase then fileChange.parentFilePath else fileChange.filePath
          range :=
            { startLine := getZeroBased anchor, startCharacter := 0
              endLine := getZeroBased anchor, endCharacter := 0 }
          comments := (firstComment :: rest).map convertComment
          collapsibleState := some .Expanded })

/-- The per-thread contribution to the added set of
getAddedOrUpdatedCommentThreads. -/
def addedOf (oldCommentThreads : List CommentThread) (thread : CommentThread) :
    List CommentThread :=
  if (oldCommentThreads.filter (fun o => o.threadId == thread.threadId)).isEmpty then
    [if thread.resource.scheme == "file" then
       { thread with collapsibleState := some .Collapsed }
     else thread]
  else []

/-- The changed contribution computed from the identity matches of one new
thread. -/
def changedFromMatching (matching : List CommentThread) (thread : CommentThread) :
    List CommentThread :=
  match matching with
  | [] => []
  | firstMatch :: _ =>
    matching.flatMap (fun m =>
      if m.comments.length != thread.comments.length
          || commentsEditedInThread firstMatch.comments thread.comments then [thread]
      else [])

/-- The per-thread contribution to the changed set of
getAddedOrUpdatedCommentThreads. -/
def changedOf (oldCommentThreads : List CommentThread) (thread : CommentThread) :
    List CommentThread :=
  changedFromMatching
    (oldCommentThreads.filter (fun o => o.threadId == thread.threadId)) thread

/-- Surviving members of a thread after deleting a review's comments
(calculateChangedAndRemovedThreads). -/
def survivorsOf (deletedComments : List Comment) (thread : CommentThread) : List VSComment :=
  thread.comments.filter (fun comment =>
    !(deletedComments.any (fun deletedComment =>
      toString deletedComment.id == comment.commentId)))

/-- The per-thread changed contribution of calculateChangedAndRemovedThreads. -/
def changedOfDeleted (deletedComments : List Comment) (thread : CommentThread) :
    List CommentThread :=
  if (survivorsOf deletedComments thread).isEmpty then []
  else [{ thread with comments := survivorsOf deletedComments thread }]

/-- The per-thread removed contribution of calculateChangedAndRemovedThreads. -/
def removedOfDeleted (deletedComments : List Comment) (thread : CommentThread) :
    List CommentThread :=
  if (survivorsOf deletedComments thread).isEmpty then
    [{ thread with comments := survivorsOf deletedComments thread }]
  else []

/-- Identity-relevant data of a presentation comment: its identity and body. -/
def commentKey (c : VSComment) : String × String := (c.commentId, c.body)

/-- Identity-relevant data of a thread for reconciliation decisions: its
identity together with its members' identities and bodies. -/
def threadKey (t : CommentThread) : String × List (String × String) :=
  (t.threadId, t.comments.map commentKey)

/-- Diff-line filter kept by the base-side content reconstruction: context and
delete lines. -/
def keptOnBase (l : DiffLine) : Bool :=
  l.type == DiffChangeType.Context || l.type == DiffChangeType.Delete

/-- Diff-line filter kept by the head-side content reconstruction: context and
add lines. -/
def keptOnHead (l : DiffLine) : Bool :=
  l.type == DiffChangeType.Context || l.type == DiffChangeType.Add

/-! ## Concrete fixtures used by the witnesses -/

/-- A sample comment author. -/
def sampleUser : User := { login := "alice", avatarUrl := "avatar" }

/-- Diff lines of the sample hunk, with their wire positions. -/
def sampleDiffLines : List DiffLine :=
  [ { type := .Control, oldLineNumber := -1, newLineNumber := -1, position := 0,
      text := "@@ -1,3 +1,4 @@" },
    { type := .Context, oldLineNumber := 1, newLineNumber := 1, position := 1,
      text := " context" },
    { type := .Delete, oldLineNumber := 2, newLineNumber := -1, position := 2,
      text := "-old line" },
    { type := .Add, oldLineNumber := -1, newLineNumber := 2, position := 3,
      text := "+new line A" },
    { type := .Add, oldLineNumber := -1, newLineNumber := 3, position := 4,
      text := "+new line B" },
    { type := .Context, oldLineNumber := 3, newLineNumber := 4, position := 5,
      text := " context2" } ]

/-- A sample hunk. -/
def sampleHunk : DiffHunk :=
  { oldLineNumber := 1, oldLength := 3, newLineNumber := 1, newLength := 4,
    diffLines := sampleDiffLines }

/-- A sample raw comment on file.txt. -/
def mkComment (id : Int) (pos : Option Int) (body : String) : Comment :=
  { id := id, position := pos, body := body, path := "file.txt", commitId := "head0",
    pullRequestReviewId := 10, user := sampleUser, canEdit := true, canDelete := true,
    isDraft := false, reactions := [] }

/-- Sample pr-scheme uri parameters. -/
def samplePRParams (isBase : Bool) : PRUriParams :=
  { fileName := "file.txt", isBase := isBase, prNumber := 7, baseCommit := "b0" }

/-- A sample pr-scheme uri. -/
def samplePRUri (isBase : Bool) : Uri :=
  { scheme := "pr", path := "/repo/file.txt", prParams := some (samplePRParams isBase) }

/-- A sample plain file uri. -/
def sampleFileUri : Uri := { scheme := "file", path := "/repo/file.txt" }

/-- A sample in-memory file change holding the given comments. -/
def sampleFileChange (comments : List Comment) : InMemFileChange :=
  { status := .MODIFY, fileName := "file.txt", previousFileName := none,
    filePath := samplePRUri false, parentFilePath := samplePRUri true,
    isPartial := false, patch := "", diffHunks := [sampleHunk], comments := comments }

/-- A sample text document over the sample pr uri. -/
def sampleDoc (isBase : Bool) : TextDocument :=
  { uri := samplePRUri isBase, lineCount := 20 }

/-- A sample presentation comment. -/
def sampleVSComment (cid body : String) : VSComment :=
  { commentId := cid, body := body, userName := "alice", gravatar := "avatar",
    canEdit := true, canDelete := true, isDraft := false, commentReactions := [] }

/-- A sample comment thread. -/
def sampleThread (tid : String) (uri : Uri) (comments : List VSComment) : CommentThread :=
  { threadId := tid, resource := uri,
    range := { startLine := 1, startCharacter := 0, endLine := 1, endCharacter := 0 },
    comments := comments, collapsibleState := some .Expanded }

/-! ## Generic list lemmas -/

theorem flatMap_if_singleton {β γ : Type} (p : β → Bool) (f : β → γ) :
    ∀ l : List β, l.flatMap (fun b => if p b then [f b] else []) = (l.filter p).map f
  | [] => rfl
  | b :: l => by
    cases h : p b <;>
      simp [List.flatMap_cons, List.filter_cons, h, flatMap_if_singleton p f l]

theorem foldl_append_flatMap {β γ : Type} (f : β → List γ) :
    ∀ (l : List β) (A : List γ),
      l.foldl (fun acc b => acc ++ f b) A = A ++ l.flatMap f
  | [], A => by simp
  | b :: l, A => by
    simp [List.foldl_cons, foldl_append_flatMap f l, List.flatMap_cons, List.append_assoc]

theorem foldl_pair_append {β γ δ : Type} (f : β → List γ) (g : β → List δ) :
    ∀ (l : List β) (A : List γ) (C : List δ),
      l.foldl (fun acc b => (acc.1 ++ f b, acc.2 ++ g b)) (A, C) =
        (A ++ l.flatMap f, C ++ l.flatMap g)
  | [], A, C => by simp
  | b :: l, A, C => by
    simp [List.foldl_cons, foldl_pair_append f g l, List.flatMap_cons, List.append_assoc]

theorem insertGrouped_not_mem {α κ : Type} [BEq κ] (k : κ) (el : α) :
    ∀ acc : List (κ × List α), (∀ p ∈ acc, (p.1 == k) = false) →
      insertGrouped k el acc = acc ++ [(k, [el])]
  | [], _ => rfl
  | p :: rest, h => by
    have hp := h p (List.mem_cons_self p rest)
    have ih := insertGrouped_not_mem k el rest (fun q hq => h q (List.mem_cons_of_mem p hq))
    simp [insertGrouped, hp, ih]

theorem insertGrouped_mem {α κ : Type} [BEq κ] [LawfulBEq κ] (k : κ) (el : α) :
    ∀ acc : List (κ × List α), (acc.map Prod.fst).Nodup → (∃ p ∈ acc, p.1 = k) →
      insertGrouped k el acc = acc.map (fun p => if p.1 == k then (p.1, p.2 ++ [el]) else p)
  | [], _, hex => by simp at hex
  | q :: rest, hnd, hex => by
    simp only [List.map_cons, List.nodup_cons] at hnd
    cases hqk : q.1 == k with
    | true =>
      have hq : q.1 = k := by simpa using hqk
      have hrest : rest.map (fun p => if p.1 == k then (p.1, p.2 ++ [el]) else p) = rest := by
        have : ∀ p ∈ rest, (if p.1 == k then (p.1, p.2 ++ [el]) else p) = p := by
          intro p hp
          have : (p.1 == k) = false := by
            by_contra hc
            have : p.1 = k := by
              cases hpk : p.1 == k with
              | true => simpa using hpk
              | false => exact absurd hpk hc
            refine hnd.1 ?_
            rw [hq, ← this]
            exact List.mem_map_of_mem Prod.fst hp
          simp [this]
        rw [List.map_congr_left this, List.map_id']
      simp [insertGrouped, hqk, hrest]
    | false =>
      have hq : q.1 ≠ k := by simpa using hqk
      have hex' : ∃ p ∈ rest, p.1 = k := by
        rcases hex with ⟨p, hp, hpk⟩
        rcases List.mem_cons.mp hp with rfl | hp'
        · exact absurd hpk hq
        · exact ⟨p, hp', hpk⟩
      have ih := insertGrouped_mem k el rest hnd.2 hex'
      simp [insertGrouped, hqk, ih]

theorem map_fst_insertGrouped {α κ : Type} [BEq κ] (k : κ) (el : α) :
    ∀ acc : List (κ × List α),
      (insertGrouped k el acc).map Prod.fst =
        if acc.any (fun p => p.1 == k) then acc.map Prod.fst else acc.map Prod.fst ++ [k]
  | [] => by simp [insertGrouped]
  | q :: rest => by
    cases hqk : q.1 == k with
    | true => simp [insertGrouped, hqk]
    | false =>
      have ih := map_fst_insertGrouped k el rest
      cases hrest : rest.any (fun p => p.1 == k) with
      | true => simp [insertGrouped, hqk, hrest, hrest ▸ ih]
      | false => simp [insertGrouped, hqk, hrest, hrest ▸ ih]

theorem any_map_general {β γ : Type} (f : β → γ) (p : γ → Bool) :
    ∀ l : List β, (l.map f).any p = l.any (fun b => p (f b))
  | [] => rfl
  | b :: l => by simp [any_map_general f p l]

theorem beq_swap {κ : Type} [BEq κ] [LawfulBEq κ] (a b : κ) : (a == b) = (b == a) := by
  cases h : a == b with
  | true =>
    have hab : a = b := by simpa using h
    simp [hab]
  | false =>
    cases h2 : b == a with
    | true =>
      have hba : b = a := by simpa using h2
      subst hba
      simp at h
    | false => rfl

theorem foldl_insertGrouped {α κ : Type} [BEq κ] [LawfulBEq κ] (key : α → κ) :
    ∀ (l : List α) (acc : List (κ × List α)), (acc.map Prod.fst).Nodup →
      l.foldl (fun result el => insertGrouped (key el) el result) acc =
        acc.map (fun p => (p.1, p.2 ++ l.filter (fun x => key x == p.1)))
          ++ ((firstKeys key l).filter (fun k => !(acc.any (fun p => p.1 == k)))).map
              (fun k => (k, l.filter (fun x => key x == k))) := by
  intro l
  induction l with
  | nil =>
    intro acc _
    simp [firstKeys]
  | cons a l ih =>
    intro acc hnd
    rw [List.foldl_cons]
    cases hmem : acc.any (fun p => p.1 == key a) with
    | false =>
      have hall : ∀ p ∈ acc, (p.1 == key a) = false := by
        intro p hp
        have := List.any_eq_false.mp hmem p hp
        simpa using this
      rw [insertGrouped_not_mem _ _ _ hall]
      have hka : key a ∉ acc.map Prod.fst := by
        intro hk
        rcases List.mem_map.mp hk with ⟨p, hp, hpk⟩
        have := hall p hp
        rw [hpk] at this
        simp at this
      have hnd' : ((acc ++ [(key a, [a])]).map Prod.fst).Nodup := by
        rw [List.map_append]
        simp [List.nodup_append, hnd, hka]
      rw [ih _ hnd']
      have h1 : acc.map (fun p => (p.1, p.2 ++ l.filter (fun x => key x == p.1)))
          = acc.map (fun p => (p.1, p.2 ++ (a :: l).filter (fun x => key x == p.1))) := by
        apply List.map_congr_left
        intro p hp
        have hf : (key a == p.1) = false := by rw [beq_swap]; exact hall p hp
        simp [List.filter_cons, hf]
      have hstep : (fun k => !((acc ++ [(key a, [a])]).any (fun p => p.1 == k)))
          = (fun k => (!(acc.any (fun p => p.1 == k))) && !(k == key a)) := by
        funext k
        rw [List.any_append]
        simp [Bool.not_or, beq_swap (key a) k]
      have hhead : (firstKeys key (a :: l)).filter (fun k => !(acc.any (fun p => p.1 == k)))
          = key a :: ((firstKeys key l).filter (fun k => !(k == key a))).filter
              (fun k => !(acc.any (fun p => p.1 == k))) := by
        show (key a :: (firstKeys key l).filter (fun k => !(k == key a))).filter _ = _
        rw [List.filter_cons]
        simp [hmem]
      rw [hhead, List.filter_filter]
      have h2 : ((firstKeys key l).filter
            (fun k => (!(acc.any (fun p => p.1 == k))) && !(k == key a))).map
              (fun k => (k, (a :: l).filter (fun x => key x == k)))
          = ((firstKeys key l).filter
            (fun k => (!(acc.any (fun p => p.1 == k))) && !(k == key a))).map
              (fun k => (k, l.filter (fun x => key x == k))) := by
        apply List.map_congr_left
        intro k hk
        have hprop := (List.mem_filter.mp hk).2
        have hne : (k == key a) = false := by
          cases hke : k == key a with
          | true => rw [hke] at hprop; simp at hprop
          | false => rfl
        have hne' : (key a == k) = false := by rw [beq_swap]; exact hne
        simp [List.filter_cons, hne']
      rw [List.map_append, h1, hstep]
      have hsingle : List.map (fun p => (p.1, p.2 ++ List.filter (fun x => key x == p.1) l))
            [(key a, [a])]
          = [(key a, (a :: l).filter (fun x => key x == key a))] := by
        simp [List.filter_cons]
      rw [hsingle, List.map_cons, h2, List.append_assoc, List.singleton_append]
    | true =>
      have hex : ∃ p ∈ acc, p.1 = key a := by
        rcases List.any_eq_true.mp hmem with ⟨p, hp, hpk⟩
        exact ⟨p, hp, by simpa using hpk⟩
      rw [insertGrouped_mem _ _ _ hnd hex]
      have hkeys : ((acc.map (fun p => if p.1 == key a then (p.1, p.2 ++ [a]) else p)).map
          Prod.fst) = acc.map Prod.fst := by
        rw [List.map_map]
        apply List.map_congr_left
        intro p _
        show (if p.1 == key a then ((p.1, p.2 ++ [a]) : κ × List α) else p).1 = p.1
        split <;> rfl
      have hnd2 : ((acc.map (fun p => if p.1 == key a then (p.1, p.2 ++ [a]) else p)).map
          Prod.fst).Nodup := by rw [hkeys]; exact hnd
      rw [ih _ hnd2]
      have h1 : (acc.map (fun p => if p.1 == key a then (p.1, p.2 ++ [a]) else p)).map
            (fun p => (p.1, p.2 ++ l.filter (fun x => key x == p.1)))
          = acc.map (fun p => (p.1, p.2 ++ (a :: l).filter (fun x => key x == p.1))) := by
        rw [List.map_map]
        apply List.map_congr_left
        intro p _
        show (fun p => (p.1, p.2 ++ l.filter (fun x => key x == p.1)))
            (if p.1 == key a then (p.1, p.2 ++ [a]) else p)
          = (p.1, p.2 ++ (a :: l).filter (fun x => key x == p.1))
        cases hpk : p.1 == key a with
        | true =>
          have hsym : (key a == p.1) = true := by rw [beq_swap]; exact hpk
          simp [List.filter_cons, hsym]
        | false =>
          have hsym : (key a == p.1) = false := by rw [beq_swap]; exact hpk
          simp [List.filter_cons, hsym]
      have hany : ∀ k, ((acc.map (fun p => if p.1 == key a then (p.1, p.2 ++ [a]) else p)).any
          (fun p => p.1 == k)) = acc.any (fun p => p.1 == k) := by
        intro k
        have ha := any_map_general Prod.fst (fun x => x == k)
          (acc.map (fun p => if p.1 == key a then (p.1, p.2 ++ [a]) else p))
        have hb := any_map_general Prod.fst (fun x => x == k) acc
        rw [hkeys] at ha
        exact ha.symm.trans hb
      have hstep : (fun k => !((acc.map (fun p => if p.1 == key a then (p.1, p.2 ++ [a]) else p)).any
            (fun p => p.1 == k)))
          = (fun k => !(acc.any (fun p => p.1 == k))) := by
        funext k
        rw [hany k]
      have hpred : ((firstKeys key l).filter (fun k => !(acc.any (fun p => p.1 == k))))
          = (firstKeys key l).filter
              (fun k => (!(acc.any (fun p => p.1 == k))) && !(k == key a)) := by
        apply List.filter_congr
        intro k _
        cases hk : acc.any (fun p => p.1 == k) with
        | true => simp [hk]
        | false =>
          have hne : (k == key a) = false := by
            cases hke : k == key a with
            | true =>
              have : k = key a := by simpa using hke
              rw [this] at hk
              rw [hk] at hmem
              cases hmem
            | false => rfl
          simp [hk, hne]
      have hhead : (firstKeys key (a :: l)).filter (fun k => !(acc.any (fun p => p.1 == k)))
          = ((firstKeys key l).filter (fun k => !(k == key a))).filter
              (fun k => !(acc.any (fun p => p.1 == k))) := by
        show (key a :: (firstKeys key l).filter (fun k => !(k == key a))).filter _ = _
        rw [List.filter_cons]
        simp [hmem]
      have h2 : ((firstKeys key l).filter
            (fun k => (!(acc.any (fun p => p.1 == k))) && !(k == key a))).map
              (fun k => (k, (a :: l).filter (fun x => key x == k)))
          = ((firstKeys key l).filter
            (fun k => (!(acc.any (fun p => p.1 == k))) && !(k == key a))).map
              (fun k => (k, l.filter (fun x => key x == k))) := by
        apply List.map_congr_left
        intro k hk
        have hprop := (List.mem_filter.mp hk).2
        have hne : (k == key a) = false := by
          cases hke : k == key a with
          | true => rw [hke] at hprop; simp at hprop
          | false => rfl
        have hne' : (key a == k) = false := by rw [beq_swap]; exact hne
        simp [List.filter_cons, hne']
      rw [h1, hstep, hhead, List.filter_filter, hpred, h2]

theorem groupBy_eq_firstKeys {α κ : Type} [BEq κ] [LawfulBEq κ] (key : α → κ) (l : List α) :
    groupBy key l = (firstKeys key l).map (fun k => (k, l.filter (fun x => key x == k))) := by
  have h := foldl_insertGrouped key l [] (by simp)
  simpa [groupBy] using h

/-! ## Characterizations of the embedded functions -/

theorem commentsToCommentThreads_eq_spec (fileChange : InMemFileChange)
    (comments : List Comment) (isBase : Bool) :
    commentsToCommentThreads fileChange comments isBase =
      commentThreadsSpec fileChange comments isBase := by
  unfold commentsToCommentThreads commentThreadsSpec
  rw [groupBy_eq_firstKeys, List.filterMap_map]
  apply List.filterMap_congr
  intro k _
  cases hfil : comments.filter (fun c => c.position == k) with
  | nil => simp [Function.comp, hfil]
  | cons first rest => simp [Function.comp, hfil]

theorem foldl_gAOU (oldCommentThreads : List CommentThread) :
    ∀ (newCommentThreads : List CommentThread) (A C : List CommentThread),
      newCommentThreads.foldl (fun acc thread =>
        let matchingCommentThread :=
          oldCommentThreads.filter (fun oldThread => oldThread.threadId == thread.threadId)
        match matchingCommentThread with
        | [] =>
          let addedThread :=
            if thread.resource.scheme == "file" then
              { thread with collapsibleState := some .Collapsed }
            else thread
          (acc.1 ++ [addedThread], acc.2)
        | firstMatch :: _ =>
          (acc.1,
            matchingCommentThread.foldl (fun changed m =>
              if m.comments.length != thread.comments.length
                  || commentsEditedInThread firstMatch.comments thread.comments then
                changed ++ [thread]
              else changed) acc.2)) (A, C) =
      (A ++ newCommentThreads.flatMap (addedOf oldCommentThreads),
       C ++ newCommentThreads.flatMap (changedOf oldCommentThreads))
  | [], A, C => by simp
  | t :: new, A, C => by
    rw [List.foldl_cons]
    cases hm : oldCommentThreads.filter (fun oldThread => oldThread.threadId == t.threadId) with
    | nil =>
      simp only [hm]
      rw [foldl_gAOU oldCommentThreads new _ _]
      simp [addedOf, changedOf, changedFromMatching, hm, List.append_assoc]
    | cons m0 ms =>
      simp only [hm]
      have hfun : (fun (changed : List CommentThread) (m : CommentThread) =>
          if m.comments.length != t.comments.length
              || commentsEditedInThread m0.comments t.comments then
            changed ++ [t]
          else changed)
          = (fun (changed : List CommentThread) (m : CommentThread) => changed ++
              (if m.comments.length != t.comments.length
                  || commentsEditedInThread m0.comments t.comments then [t] else [])) := by
        funext changed m
        cases m.comments.length != t.comments.length
            || commentsEditedInThread m0.comments t.comments <;> simp
      rw [hfun, foldl_append_flatMap]
      rw [foldl_gAOU oldCommentThreads new _ _]
      simp [List.flatMap_cons, addedOf, changedOf, changedFromMatching, hm, List.append_assoc]

theorem getAddedOrUpdatedCommentThreads_eq
    (oldCommentThreads newCommentThreads : List CommentThread) :
    getAddedOrUpdatedCommentThreads oldCommentThreads newCommentThreads =
      (newCommentThreads.flatMap (addedOf oldCommentThreads),
       newCommentThreads.flatMap (changedOf oldCommentThreads)) := by
  have h := foldl_gAOU oldCommentThreads newCommentThreads [] []
  simpa [getAddedOrUpdatedCommentThreads] using h

theorem calculateChangedAndRemovedThreads_eq (fileChange : InMemFileChange)
    (deletedComments : List Comment) (isBase : Bool) :
    calculateChangedAndRemovedThreads fileChange deletedComments isBase =
      ((commentsToCommentThreads fileChange fileChange.comments isBase).flatMap
         (changedOfDeleted deletedComments),
       (commentsToCommentThreads fileChange fileChange.comments isBase).flatMap
         (removedOfDeleted deletedComments)) := by
  unfold calculateChangedAndRemovedThreads
  have hfun : (fun (acc : List CommentThread × List CommentThread) thread =>
      let survivors := thread.comments.filter (fun comment =>
        !(deletedComments.any (fun deletedComment =>
          toString deletedComment.id == comment.commentId)))
      if survivors.isEmpty then (acc.1, acc.2 ++ [{ thread with comments := survivors }])
      else (acc.1 ++ [{ thread with comments := survivors }], acc.2))
      = (fun acc thread => (acc.1 ++ changedOfDeleted deletedComments thread,
          acc.2 ++ removedOfDeleted deletedComments thread)) := by
    funext acc thread
    simp only [changedOfDeleted, removedOfDeleted, survivorsOf]
    cases h : (thread.comments.filter (fun comment =>
        !(deletedComments.any (fun deletedComment =>
          toString deletedComment.id == comment.commentId)))).isEmpty <;> simp [h]
  rw [hfun, foldl_pair_append]
  simp

theorem leftLines_eq (diffHunks : List DiffHunk) :
    leftLines diffHunks =
      ((diffHunks.flatMap DiffHunk.diffLines).filter keptOnBase).map DiffLine.text := by
  unfold leftLines
  have hinner : ∀ (L : List DiffLine) (A : List String),
      L.foldl (fun left diffLine => match diffLine.type with
        | .Add => left
        | .Delete => left ++ [diffLine.text]
        | .Control => left
        | .Context => left ++ [diffLine.text]) A
      = A ++ L.flatMap (fun dl => if keptOnBase dl then [dl.text] else []) := by
    intro L A
    have hfun : (fun (left : List String) diffLine =>
        match diffLine.type with
        | DiffChangeType.Add => left
        | DiffChangeType.Delete => left ++ [diffLine.text]
        | DiffChangeType.Control => left
        | DiffChangeType.Context => left ++ [diffLine.text])
        = (fun left dl => left ++ (if keptOnBase dl then [dl.text] else [])) := by
      funext left dl
      cases htype : dl.type <;> simp [keptOnBase, htype]
    rw [hfun, foldl_append_flatMap]
  have houter : (fun (left : List String) (diffHunk : DiffHunk) =>
      diffHunk.diffLines.foldl (fun left diffLine => match diffLine.type with
        | .Add => left
        | .Delete => left ++ [diffLine.text]
        | .Control => left
        | .Context => left ++ [diffLine.text]) left)
      = (fun left diffHunk => left ++
          diffHunk.diffLines.flatMap (fun dl => if keptOnBase dl then [dl.text] else [])) := by
    funext left diffHunk
    exact hinner _ _
  rw [houter, foldl_append_flatMap, List.nil_append, ← List.flatMap_assoc,
    flatMap_if_singleton]

theorem rightLines_eq (diffHunks : List DiffHunk) :
    rightLines diffHunks =
      ((diffHunks.flatMap DiffHunk.diffLines).filter keptOnHead).map DiffLine.text := by
  unfold rightLines
  have hinner : ∀ (L : List DiffLine) (A : List String),
      L.foldl (fun right diffLine => match diffLine.type with
        | .Add => right ++ [diffLine.text]
        | .Delete => right
        | .Control => right
        | .Context => right ++ [diffLine.text]) A
      = A ++ L.flatMap (fun dl => if keptOnHead dl then [dl.text] else []) := by
    intro L A
    have hfun : (fun (right : List String) diffLine =>
        match diffLine.type with
        | DiffChangeType.Add => right ++ [diffLine.text]
        | DiffChangeType.Delete => right
        | DiffChangeType.Control => right
        | DiffChangeType.Context => right ++ [diffLine.text])
        = (fun right dl => right ++ (if keptOnHead dl then [dl.text] else [])) := by
      funext right dl
      cases htype : dl.type <;> simp [keptOnHead, htype]
    rw [hfun, foldl_append_flatMap]
  have houter : (fun (right : List String) (diffHunk : DiffHunk) =>
      diffHunk.diffLines.foldl (fun right diffLine => match diffLine.type with
        | .Add => right ++ [diffLine.text]
        | .Delete => right
        | .Control => right
        | .Context => right ++ [diffLine.text]) right)
      = (fun right diffHunk => right ++
          diffHunk.diffLines.flatMap (fun dl => if keptOnHead dl then [dl.text] else [])) := by
    funext right diffHunk
    exact hinner _ _
  rw [houter, foldl_append_flatMap, List.nil_append, ← List.flatMap_assoc,
    flatMap_if_singleton]

theorem map_filter_key {β γ : Type} (key : β → γ) (p : γ → Bool) :
    ∀ l : List β, (l.filter (fun b => p (key b))).map key = (l.map key).filter p
  | [] => rfl
  | b :: l => by
    cases h : p (key b) <;> simp [List.filter_cons, h, map_filter_key key p l]

theorem flatMap_key {β γ δ : Type} (key : β → γ) (g : γ → List δ) :
    ∀ l : List β, l.flatMap (fun b => g (key b)) = (l.map key).flatMap g
  | [] => rfl
  | b :: l => by simp [List.flatMap_cons, flatMap_key key g l]

theorem isEmpty_map {β γ : Type} (f : β → γ) (l : List β) :
    (l.map f).isEmpty = l.isEmpty := by
  cases l <;> rfl

theorem mem_getRemovedCommentThreads {oldCommentThreads newCommentThreads : List CommentThread}
    {t : CommentThread} :
    t ∈ getRemovedCommentThreads oldCommentThreads newCommentThreads ↔
      t ∈ oldCommentThreads ∧ ∀ n ∈ newCommentThreads, n.threadId ≠ t.threadId := by
  unfold getRemovedCommentThreads
  rw [List.mem_filter]
  constructor
  · rintro ⟨hmem, hemp⟩
    refine ⟨hmem, ?_⟩
    intro n hn hne
    have : newCommentThreads.filter (fun newThread => newThread.threadId == t.threadId) = [] :=
      List.isEmpty_iff.mp hemp
    have hn' : n ∈ newCommentThreads.filter (fun newThread => newThread.threadId == t.threadId) :=
      List.mem_filter.mpr ⟨hn, by simp [hne]⟩
    rw [this] at hn'
    simp at hn'
  · rintro ⟨hmem, hall⟩
    refine ⟨hmem, ?_⟩
    rw [List.isEmpty_iff, List.filter_eq_nil_iff]
    intro n hn
    simp [hall n hn]

theorem mem_addedOf {oldCommentThreads : List CommentThread} {u t : CommentThread} :
    t ∈ addedOf oldCommentThreads u ↔
      ((∀ m ∈ oldCommentThreads, m.threadId ≠ u.threadId) ∧
        t = (if u.resource.scheme == "file" then
              { u with collapsibleState := some .Collapsed }
            else u)) := by
  unfold addedOf
  cases h : (oldCommentThreads.filter (fun o => o.threadId == u.threadId)).isEmpty with
  | true =>
    have hnil := List.isEmpty_iff.mp h
    rw [List.filter_eq_nil_iff] at hnil
    simp only [if_true]
    constructor
    · intro ht
      refine ⟨?_, by simpa using ht⟩
      intro m hm hne
      have := hnil m hm
      simp [hne] at this
    · rintro ⟨_, rfl⟩
      simp
  | false =>
    simp only [Bool.false_eq_true, if_false]
    constructor
    · intro ht
      simp at ht
    · rintro ⟨hall, _⟩
      exfalso
      have hne : oldCommentThreads.filter (fun o => o.threadId == u.threadId) ≠ [] := by
        intro hnil
        rw [hnil] at h
        simp at h
      rcases List.exists_mem_of_ne_nil _ hne with ⟨m, hm⟩
      have hm' := List.mem_filter.mp hm
      exact hall m hm'.1 (by simpa using hm'.2)

theorem mem_changedOf_eq {oldCommentThreads : List CommentThread} {u t : CommentThread}
    (h : t ∈ changedOf oldCommentThreads u) : t = u := by
  unfold changedOf changedFromMatching at h
  cases hm : oldCommentThreads.filter (fun o => o.threadId == u.threadId) with
  | nil => rw [hm] at h; simp at h
  | cons m0 ms =>
    rw [hm] at h
    rcases List.mem_flatMap.mp h with ⟨m, _, hmem⟩
    by_cases hc : (m.comments.length != u.comments.length
        || commentsEditedInThread m0.comments u.comments) = true
    · rw [if_pos hc] at hmem
      simpa using hmem
    · rw [if_neg hc] at hmem
      simp at hmem

theorem changedOf_match {oldCommentThreads : List CommentThread} {u t : CommentThread}
    (h : t ∈ changedOf oldCommentThreads u) :
    ∃ m ∈ oldCommentThreads, m.threadId = u.threadId := by
  unfold changedOf changedFromMatching at h
  cases hm : oldCommentThreads.filter (fun o => o.threadId == u.threadId) with
  | nil => rw [hm] at h; simp at h
  | cons m0 ms =>
    have hm0 : m0 ∈ oldCommentThreads.filter (fun o => o.threadId == u.threadId) := by
      rw [hm]; exact List.mem_cons_self m0 ms
    have hm0' := List.mem_filter.mp hm0
    exact ⟨m0, hm0'.1, by simpa using hm0'.2⟩

theorem filter_threadId_single {l : List CommentThread}
    (hnd : (l.map CommentThread.threadId).Nodup) {m : CommentThread} (hm : m ∈ l) :
    l.filter (fun o => o.threadId == m.threadId) = [m] := by
  induction l with
  | nil => simp at hm
  | cons a rest ih =>
    simp only [List.map_cons, List.nodup_cons] at hnd
    rcases List.mem_cons.mp hm with rfl | hm'
    · rw [List.filter_cons]
      simp only [beq_self_eq_true, if_true]
      have : rest.filter (fun o => o.threadId == m.threadId) = [] := by
        rw [List.filter_eq_nil_iff]
        intro o ho hbeq
        exact hnd.1 (by
          have : o.threadId = m.threadId := by simpa using hbeq
          rw [← this]
          exact List.mem_map_of_mem CommentThread.threadId ho)
      rw [this]
    · have hka : (a.threadId == m.threadId) = false := by
        cases hke : a.threadId == m.threadId with
        | true =>
          exfalso
          have : a.threadId = m.threadId := by simpa using hke
          exact hnd.1 (this ▸ List.mem_map_of_mem CommentThread.threadId hm')
        | false => rfl
      rw [List.filter_cons]
      simp only [hka, Bool.false_eq_true, if_false]
      exact ih hnd.2 hm'

theorem changedOf_single {oldCommentThreads : List CommentThread} {u m : CommentThread}
    (hfil : oldCommentThreads.filter (fun o => o.threadId == u.threadId) = [m]) :
    changedOf oldCommentThreads u =
      if m.comments.length != u.comments.length
          || commentsEditedInThread m.comments u.comments then [u] else [] := by
  unfold changedOf changedFromMatching
  rw [hfil]
  simp [List.flatMap_cons]

theorem commentsEditedInThread_iff (oc nc : List VSComment) :
    commentsEditedInThread oc nc = true ↔
      ∃ o ∈ oc, (nc.countP (fun n => n.commentId == o.commentId) ≠ 1 ∨
        ∃ n ∈ nc, n.commentId = o.commentId ∧ n.body ≠ o.body) := by
  unfold commentsEditedInThread
  rw [List.any_eq_true]
  constructor
  · rintro ⟨o, ho, hp⟩
    refine ⟨o, ho, ?_⟩
    cases hfil : nc.filter (fun n => n.commentId == o.commentId) with
    | nil =>
      left
      rw [List.countP_eq_length_filter, hfil]
      simp
    | cons n rest =>
      cases rest with
      | nil =>
        right
        rw [hfil] at hp
        have hn : n ∈ nc.filter (fun x => x.commentId == o.commentId) := by
          rw [hfil]; exact List.mem_cons_self n []
        have hn' := List.mem_filter.mp hn
        exact ⟨n, hn'.1, by simpa using hn'.2, by simpa using hp⟩
      | cons n2 rest2 =>
        left
        rw [List.countP_eq_length_filter, hfil]
        simp
  · rintro ⟨o, ho, hcase⟩
    refine ⟨o, ho, ?_⟩
    cases hfil : nc.filter (fun n => n.commentId == o.commentId) with
    | nil => simp
    | cons n rest =>
      cases rest with
      | nil =>
        rcases hcase with hcount | ⟨n', hn', hid, hbody⟩
        · exfalso
          apply hcount
          rw [List.countP_eq_length_filter, hfil]
          rfl
        · have hn'f : n' ∈ nc.filter (fun x => x.commentId == o.commentId) :=
            List.mem_filter.mpr ⟨hn', by simp [hid]⟩
          rw [hfil] at hn'f
          have : n' = n := by simpa using hn'f
          subst this
          simpa using hbody
      | cons n2 rest2 => simp

theorem commentsEditedInThread_congr {oc oc' : List VSComment} (nc : List VSComment)
    (h : oc.map commentKey = oc'.map commentKey) :
    commentsEditedInThread oc nc = commentsEditedInThread oc' nc := by
  unfold commentsEditedInThread
  have e1 := any_map_general commentKey
    (fun key => match nc.filter (fun n => n.commentId == key.1) with
      | [matchingComment] => matchingComment.body != key.2
      | _ => true) oc
  have e2 := any_map_general commentKey
    (fun key => match nc.filter (fun n => n.commentId == key.1) with
      | [matchingComment] => matchingComment.body != key.2
      | _ => true) oc'
  rw [h] at e1
  exact e1.symm.trans e2

theorem filter_threadKey_map (u : String) (l : List CommentThread) :
    (l.filter (fun o => o.threadId == u)).map threadKey
      = (l.map threadKey).filter (fun k => k.1 == u) :=
  map_filter_key threadKey (fun k => k.1 == u) l

theorem changedFromMatching_congr {L L' : List CommentThread} (u : CommentThread)
    (h : L.map threadKey = L'.map threadKey) :
    changedFromMatching L u = changedFromMatching L' u := by
  cases L with
  | nil =>
    cases L' with
    | nil => rfl
    | cons x xs => simp at h
  | cons m0 ms =>
    cases L' with
    | nil => simp at h
    | cons m0' ms' =>
      simp only [List.map_cons, List.cons.injEq] at h
      obtain ⟨hk0, hktail⟩ := h
      have hcomments : m0.comments.map commentKey = m0'.comments.map commentKey := by
        have := congrArg Prod.snd hk0
        simpa [threadKey] using this
      have hedit : commentsEditedInThread m0.comments u.comments
          = commentsEditedInThread m0'.comments u.comments :=
        commentsEditedInThread_congr u.comments hcomments
      unfold changedFromMatching
      show ((m0 :: ms).flatMap fun m =>
            if m.comments.length != u.comments.length
                || commentsEditedInThread m0.comments u.comments then [u] else [])
          = ((m0' :: ms').flatMap fun m =>
            if m.comments.length != u.comments.length
                || commentsEditedInThread m0'.comments u.comments then [u] else [])
      rw [hedit]
      have hfun : (fun (m : CommentThread) =>
          if m.comments.length != u.comments.length
              || commentsEditedInThread m0'.comments u.comments then [u] else [])
          = (fun (m : CommentThread) =>
              (fun (k : String × List (String × String)) =>
                if k.2.length != u.comments.length
                    || commentsEditedInThread m0'.comments u.comments then [u] else [])
                (threadKey m)) := by
        funext m
        simp [threadKey]
      rw [hfun]
      have hmaps : (m0 :: ms).map threadKey = (m0' :: ms').map threadKey := by
        simp [hk0, hktail]
      generalize (fun (k : String × List (String × String)) =>
          if k.2.length != u.comments.length
              || commentsEditedInThread m0'.comments u.comments then [u] else []) = g
      rw [flatMap_key threadKey g (m0 :: ms), flatMap_key threadKey g (m0' :: ms'), hmaps]

theorem changedOf_congr {oldCommentThreads oldCommentThreads' : List CommentThread}
    (u : CommentThread)
    (h : oldCommentThreads.map threadKey = oldCommentThreads'.map threadKey) :
    changedOf oldCommentThreads u = changedOf oldCommentThreads' u := by
  unfold changedOf
  apply changedFromMatching_congr
  rw [filter_threadKey_map, filter_threadKey_map, h]

theorem addedOf_congr {oldCommentThreads oldCommentThreads' : List CommentThread}
    (u : CommentThread)
    (h : oldCommentThreads.map threadKey = oldCommentThreads'.map threadKey) :
    addedOf oldCommentThreads u = addedOf oldCommentThreads' u := by
  unfold addedOf
  have hfil : (oldCommentThreads.filter (fun o => o.threadId == u.threadId)).isEmpty
      = (oldCommentThreads'.filter (fun o => o.threadId == u.threadId)).isEmpty := by
    have h1 : (oldCommentThreads.filter (fun o => o.threadId == u.threadId)).map threadKey
        = (oldCommentThreads'.filter (fun o => o.threadId == u.threadId)).map threadKey := by
      rw [filter_threadKey_map, filter_threadKey_map, h]
    have e1 := isEmpty_map threadKey
      (oldCommentThreads.filter (fun o => o.threadId == u.threadId))
    have e2 := isEmpty_map threadKey
      (oldCommentThreads'.filter (fun o => o.threadId == u.threadId))
    rw [← e1, ← e2, h1]
  rw [hfil]

/-! ## Claim theorems -/

/-- C1: for every comment list, hunk list and side flag, the grouping performed
by commentsToCommentThreads is exactly the spec's partition algorithm
(commentThreadsSpec): comments are partitioned by diff position, each
partition's anchor line is resolved from the partition's first comment via
getPositionInDiff when the file change is partial and getAbsolutePosition
otherwise, a partition whose resolved line is negative is dropped whole, and
each surviving partition yields one thread whose identity is the string form
of the first comment's id and whose members are the full partition in arrival
order.  Moreover every member of every produced thread originates from a
comment with a non-null position, so null-position comments are excluded. -/
theorem c1_grouping_partitions_by_position (fileChange : InMemFileChange)
    (comments : List Comment) (isBase : Bool) :
    commentsToCommentThreads fileChange comments isBase =
      commentThreadsSpec fileChange comments isBase ∧
    ∀ t ∈ commentsToCommentThreads fileChange comments isBase,
      ∀ vc ∈ t.comments, ∃ c ∈ comments, c.position.isSome ∧ vc = convertComment c := by
  refine ⟨commentsToCommentThreads_eq_spec fileChange comments isBase, ?_⟩
  intro t ht vc hvc
  rw [commentsToCommentThreads_eq_spec] at ht
  unfold commentThreadsSpec at ht
  rcases List.mem_filterMap.mp ht with ⟨k, _, hsome⟩
  cases hfil : comments.filter (fun comment => comment.position == k) with
  | nil => rw [hfil] at hsome; simp at hsome
  | cons first rest =>
    rw [hfil] at hsome
    by_cases hneg : (if fileChange.isPartial then
        getPositionInDiff first fileChange.diffHunks isBase
      else getAbsolutePosition first fileChange.diffHunks isBase) < 0
    · simp only [hneg, if_true] at hsome
      cases hsome
    · simp only [hneg, if_false] at hsome
      have hcomm : t.comments = (first :: rest).map convertComment := by
        have := congrArg CommentThread.comments (Option.some.inj hsome)
        exact this.symm
      rw [hcomm] at hvc
      rcases List.mem_map.mp hvc with ⟨c, hc, hcv⟩
      rw [← hfil] at hc
      have hc' := List.mem_filter.mp hc
      have hfirst : first ∈ comments.filter (fun comment => comment.position == k) := by
        rw [hfil]; exact List.mem_cons_self first rest
      have hfirst' := List.mem_filter.mp hfirst
      cases hp : first.position with
      | none =>
        exfalso
        apply hneg
        have : (if fileChange.isPartial then
            getPositionInDiff first fileChange.diffHunks isBase
          else getAbsolutePosition first fileChange.diffHunks isBase) = -1 := by
          unfold getPositionInDiff getAbsolutePosition
          rw [hp]
          split <;> rfl
        rw [this]
        decide
      | some p =>
        have hkp : k = some p := by
          have : first.position = k := by simpa using hfirst'.2
          rw [← this, hp]
        refine ⟨c, hc'.1, ?_, hcv.symm⟩
        have : c.position = k := by simpa using hc'.2
        rw [this, hkp]
        rfl

/-- C2: for thread generations whose old threads carry distinct identities,
a thread whose identity is present in both generations is reported changed
exactly when its member count differs from its old counterpart's, or some old
member's identity has no unique counterpart among the new members, or some old
member's body differs from the new member with the matching identity;
otherwise it is not reported in changed. -/
theorem c2_changed_iff (oldCommentThreads newCommentThreads : List CommentThread)
    (t m : CommentThread)
    (hnd : (oldCommentThreads.map CommentThread.threadId).Nodup)
    (ht : t ∈ newCommentThreads) (hm : m ∈ oldCommentThreads)
    (hid : m.threadId = t.threadId) :
    t ∈ (getAddedOrUpdatedCommentThreads oldCommentThreads newCommentThreads).2 ↔
      (m.comments.length ≠ t.comments.length ∨
        ∃ o ∈ m.comments,
          (t.comments.countP (fun n => n.commentId == o.commentId) ≠ 1 ∨
            ∃ n ∈ t.comments, n.commentId = o.commentId ∧ n.body ≠ o.body)) := by
  rw [getAddedOrUpdatedCommentThreads_eq]
  have hfil : oldCommentThreads.filter (fun o => o.threadId == t.threadId) = [m] := by
    have h := filter_threadId_single hnd hm
    rw [hid] at h
    exact h
  constructor
  · intro hmem
    rcases List.mem_flatMap.mp hmem with ⟨u, _, hcu⟩
    have hut := mem_changedOf_eq hcu
    subst hut
    rw [changedOf_single hfil] at hcu
    cases hcond : (m.comments.length != t.comments.length
        || commentsEditedInThread m.comments t.comments) with
    | false => rw [hcond] at hcu; simp at hcu
    | true =>
      rcases (Bool.or_eq_true _ _ ▸ hcond : _ ∨ _) with hlen | hedit
      · left
        simpa using hlen
      · right
        exact (commentsEditedInThread_iff _ _).mp hedit
  · intro hcond
    apply List.mem_flatMap.mpr
    refine ⟨t, ht, ?_⟩
    rw [changedOf_single hfil]
    have hb : (m.comments.length != t.comments.length
        || commentsEditedInThread m.comments t.comments) = true := by
      rw [Bool.or_eq_true]
      rcases hcond with hlen | hex
      · left
        simpa using hlen
      · right
        exact (commentsEditedInThread_iff _ _).mpr hex
    rw [hb]
    simp

/-- C3: reconciliation partitions identities.  Removed contains exactly the
old threads with no identity counterpart among the new threads; added contains
exactly the (collapse-marked) new threads with no identity counterpart among
the old threads; every changed thread has its identity in both generations;
and every identity in the union of the two generations falls in exactly one of
added, removed, changed-with-match, or implicit-unchanged, the three reported
sets being pairwise disjoint on identities. -/
theorem c3_reconciliation_is_partition
    (oldCommentThreads newCommentThreads : List CommentThread) :
    (∀ t, t ∈ getRemovedCommentThreads oldCommentThreads newCommentThreads ↔
        t ∈ oldCommentThreads ∧ ∀ n ∈ newCommentThreads, n.threadId ≠ t.threadId) ∧
    (∀ t, t ∈ (getAddedOrUpdatedCommentThreads oldCommentThreads newCommentThreads).1 ↔
        ∃ u ∈ newCommentThreads,
          (∀ mo ∈ oldCommentThreads, mo.threadId ≠ u.threadId) ∧
          t = (if u.resource.scheme == "file" then
                { u with collapsibleState := some .Collapsed } else u)) ∧
    (∀ t ∈ (getAddedOrUpdatedCommentThreads oldCommentThreads newCommentThreads).2,
        (∃ mo ∈ oldCommentThreads, mo.threadId = t.threadId) ∧ t ∈ newCommentThreads) ∧
    (∀ i, i ∈ oldCommentThreads.map CommentThread.threadId ∨
          i ∈ newCommentThreads.map CommentThread.threadId →
      ((i ∈ ((getAddedOrUpdatedCommentThreads oldCommentThreads newCommentThreads).1).map
            CommentThread.threadId ∧
        i ∉ (getRemovedCommentThreads oldCommentThreads newCommentThreads).map
            CommentThread.threadId ∧
        i ∉ ((getAddedOrUpdatedCommentThreads oldCommentThreads newCommentThreads).2).map
            CommentThread.threadId) ∨
       (i ∈ (getRemovedCommentThreads oldCommentThreads newCommentThreads).map
            CommentThread.threadId ∧
        i ∉ ((getAddedOrUpdatedCommentThreads oldCommentThreads newCommentThreads).1).map
            CommentThread.threadId ∧
        i ∉ ((getAddedOrUpdatedCommentThreads oldCommentThreads newCommentThreads).2).map
            CommentThread.threadId) ∨
       (i ∈ oldCommentThreads.map CommentThread.threadId ∧
        i ∈ newCommentThreads.map CommentThread.threadId ∧
        i ∈ ((getAddedOrUpdatedCommentThreads oldCommentThreads newCommentThreads).2).map
            CommentThread.threadId ∧
        i ∉ ((getAddedOrUpdatedCommentThreads oldCommentThreads newCommentThreads).1).map
            CommentThread.threadId ∧
        i ∉ (getRemovedCommentThreads oldCommentThreads newCommentThreads).map
            CommentThread.threadId) ∨
       (i ∈ oldCommentThreads.map CommentThread.threadId ∧
        i ∈ newCommentThreads.map CommentThread.threadId ∧
        i ∉ ((getAddedOrUpdatedCommentThreads oldCommentThreads newCommentThreads).2).map
            CommentThread.threadId ∧
        i ∉ ((getAddedOrUpdatedCommentThreads oldCommentThreads newCommentThreads).1).map
            CommentThread.threadId ∧
        i ∉ (getRemovedCommentThreads oldCommentThreads newCommentThreads).map
            CommentThread.threadId))) := by
  have hrem : ∀ t, t ∈ getRemovedCommentThreads oldCommentThreads newCommentThreads ↔
      t ∈ oldCommentThreads ∧ ∀ n ∈ newCommentThreads, n.threadId ≠ t.threadId :=
    fun t => mem_getRemovedCommentThreads
  have hadd : ∀ t,
      t ∈ (getAddedOrUpdatedCommentThreads oldCommentThreads newCommentThreads).1 ↔
      ∃ u ∈ newCommentThreads,
        (∀ mo ∈ oldCommentThreads, mo.threadId ≠ u.threadId) ∧
        t = (if u.resource.scheme == "file" then
              { u with collapsibleState := some .Collapsed } else u) := by
    intro t
    rw [getAddedOrUpdatedCommentThreads_eq]
    constructor
    · intro hmem
      rcases List.mem_flatMap.mp hmem with ⟨u, hu, hau⟩
      rcases mem_addedOf.mp hau with ⟨hnone, rfl⟩
      exact ⟨u, hu, hnone, rfl⟩
    · rintro ⟨u, hu, hnone, rfl⟩
      exact List.mem_flatMap.mpr ⟨u, hu, mem_addedOf.mpr ⟨hnone, rfl⟩⟩
  have hchg : ∀ t ∈ (getAddedOrUpdatedCommentThreads oldCommentThreads newCommentThreads).2,
      (∃ mo ∈ oldCommentThreads, mo.threadId = t.threadId) ∧ t ∈ newCommentThreads := by
    intro t hmem
    rw [getAddedOrUpdatedCommentThreads_eq] at hmem
    rcases List.mem_flatMap.mp hmem with ⟨u, hu, hcu⟩
    have hut := mem_changedOf_eq hcu
    subst hut
    exact ⟨changedOf_match hcu, hu⟩
  have hmarkId : ∀ u : CommentThread,
      (if u.resource.scheme == "file" then
        { u with collapsibleState := some CommentThreadCollapsibleState.Collapsed }
      else u).threadId = u.threadId := by
    intro u
    split <;> rfl
  have haddId : ∀ i,
      i ∈ ((getAddedOrUpdatedCommentThreads oldCommentThreads newCommentThreads).1).map
          CommentThread.threadId ↔
      (i ∈ newCommentThreads.map CommentThread.threadId ∧
       i ∉ oldCommentThreads.map CommentThread.threadId) := by
    intro i
    constructor
    · intro hi
      rcases List.mem_map.mp hi with ⟨t, hta, rfl⟩
      rcases (hadd t).mp hta with ⟨u, hu, hnone, rfl⟩
      rw [hmarkId u]
      constructor
      · exact List.mem_map_of_mem CommentThread.threadId hu
      · intro hold
        rcases List.mem_map.mp hold with ⟨mo, hmo, hmoid⟩
        exact hnone mo hmo hmoid
    · rintro ⟨hin, hnotold⟩
      rcases List.mem_map.mp hin with ⟨u, hu, rfl⟩
      have hnone : ∀ mo ∈ oldCommentThreads, mo.threadId ≠ u.threadId := by
        intro mo hmo hmoeq
        exact hnotold (hmoeq ▸ List.mem_map_of_mem CommentThread.threadId hmo)
      refine List.mem_map.mpr ⟨(if u.resource.scheme == "file" then
        { u with collapsibleState := some .Collapsed } else u), ?_, hmarkId u⟩
      exact (hadd _).mpr ⟨u, hu, hnone, rfl⟩
  have hremId : ∀ i,
      i ∈ (getRemovedCommentThreads oldCommentThreads newCommentThreads).map
          CommentThread.threadId ↔
      (i ∈ oldCommentThreads.map CommentThread.threadId ∧
       i ∉ newCommentThreads.map CommentThread.threadId) := by
    intro i
    constructor
    · intro hi
      rcases List.mem_map.mp hi with ⟨t, htr, rfl⟩
      rcases (hrem t).mp htr with ⟨hto, hnone⟩
      refine ⟨List.mem_map_of_mem CommentThread.threadId hto, ?_⟩
      intro hin
      rcases List.mem_map.mp hin with ⟨n, hn, hnid⟩
      exact hnone n hn hnid
    · rintro ⟨hin, hnotnew⟩
      rcases List.mem_map.mp hin with ⟨t, hto, rfl⟩
      have hnone : ∀ n ∈ newCommentThreads, n.threadId ≠ t.threadId := by
        intro n hn hneq
        exact hnotnew (hneq ▸ List.mem_map_of_mem CommentThread.threadId hn)
      exact List.mem_map.mpr ⟨t, (hrem t).mpr ⟨hto, hnone⟩, rfl⟩
  have hchgId : ∀ i,
      i ∈ ((getAddedOrUpdatedCommentThreads oldCommentThreads newCommentThreads).2).map
          CommentThread.threadId →
      (i ∈ oldCommentThreads.map CommentThread.threadId ∧
       i ∈ newCommentThreads.map CommentThread.threadId) := by
    intro i hi
    rcases List.mem_map.mp hi with ⟨t, htc, rfl⟩
    rcases hchg t htc with ⟨⟨mo, hmo, hmoid⟩, htn⟩
    exact ⟨hmoid ▸ List.mem_map_of_mem CommentThread.threadId hmo,
      List.mem_map_of_mem CommentThread.threadId htn⟩
  refine ⟨hrem, hadd, hchg, ?_⟩
  intro i hun
  by_cases hio : i ∈ oldCommentThreads.map CommentThread.threadId
  · by_cases hin : i ∈ newCommentThreads.map CommentThread.threadId
    · by_cases hic : i ∈ ((getAddedOrUpdatedCommentThreads oldCommentThreads
          newCommentThreads).2).map CommentThread.threadId
      · refine Or.inr (Or.inr (Or.inl ⟨hio, hin, hic, ?_, ?_⟩))
        · intro hia
          exact ((haddId i).mp hia).2 hio
        · intro hir
          exact ((hremId i).mp hir).2 hin
      · refine Or.inr (Or.inr (Or.inr ⟨hio, hin, hic, ?_, ?_⟩))
        · intro hia
          exact ((haddId i).mp hia).2 hio
        · intro hir
          exact ((hremId i).mp hir).2 hin
    · refine Or.inr (Or.inl ⟨(hremId i).mpr ⟨hio, hin⟩, ?_, ?_⟩)
      · intro hia
        exact hin ((haddId i).mp hia).1
      · intro hic
        exact hin ((hchgId i) hic).2
  · have hin : i ∈ newCommentThreads.map CommentThread.threadId := by
      rcases hun with h | h
      · exact absurd h hio
      · exact h
    refine Or.inl ⟨(haddId i).mpr ⟨hin, hio⟩, ?_, ?_⟩
    · intro hir
      exact hio ((hremId i).mp hir).1
    · intro hic
      exact hio ((hchgId i) hic).1

theorem providePRDocumentComments_eval (document : TextDocument) (prNumber : Int)
    (fileChanges : List FileChangeNode) (inDraftMode : Bool) (params : PRUriParams)
    (fileChange : InMemFileChange)
    (hu : fromPRUri document.uri = some params)
    (hpr : params.prNumber = prNumber)
    (hfind : fileChanges.find? (fun change => fileNameOf change == params.fileName)
      = some (FileChangeNode.inMem fileChange)) :
    providePRDocumentComments document prNumber fileChanges inDraftMode =
      some { threads :=
              if fileChange.comments.isEmpty then [] else
                (groupBy (fun comment => comment.position) fileChange.comments).filterMap
                  (fun sec =>
                    match sec.2 with
                    | [] => none
                    | firstComment :: _ =>
                      let commentAbsolutePosition :=
                        if fileChange.isPartial then
                          getPositionInDiff firstComment fileChange.diffHunks params.isBase
                        else
                          getAbsolutePosition firstComment fileChange.diffHunks params.isBase
                      if commentAbsolutePosition < 0 then none
                      else some
                        { threadId := toString firstComment.id
                          resource := document.uri
                          range :=
                            { startLine := getZeroBased commentAbsolutePosition,
                              startCharacter := 0
                              endLine := getZeroBased commentAbsolutePosition,
                              endCharacter := 0 }
                          comments := sec.2.map convertCommentWithReactions
                          collapsibleState := some .Expanded })
             commentingRanges :=
              if fileChange.isPartial then
                [{ startLine := 0, startCharacter := 0,
                   endLine := document.lineCount, endCharacter := 0 }]
              else
                fileChange.diffHunks.map (fun diffHunk =>
                  let startingLine :=
                    if params.isBase then getZeroBased diffHunk.oldLineNumber
                    else getZeroBased diffHunk.newLineNumber
                  let length :=
                    if params.isBase then getZeroBased diffHunk.oldLength
                    else getZeroBased diffHunk.newLength
                  { startLine := startingLine, startCharacter := 0,
                    endLine := startingLine + length, endCharacter := 0 })
             inDraftMode := inDraftMode } := by
  simp only [providePRDocumentComments, hu, hfind, hpr]
  cases hemp : fileChange.comments.isEmpty <;> simp [hemp]

/-- C4: a thread classified as added gets a collapsed display state exactly
when its target resource is a plain file uri and stays expanded otherwise
(given that grouping produced it expanded), and threads produced by either
grouping function always start expanded. -/
theorem c4_added_collapse_state
    (oldCommentThreads newCommentThreads : List CommentThread) :
    ((∀ u ∈ newCommentThreads, u.collapsibleState = some .Expanded) →
      ∀ t ∈ (getAddedOrUpdatedCommentThreads oldCommentThreads newCommentThreads).1,
        t.collapsibleState =
          some (if t.resource.scheme == "file" then
            CommentThreadCollapsibleState.Collapsed
          else CommentThreadCollapsibleState.Expanded)) ∧
    (∀ (fileChange : InMemFileChange) (comments : List Comment) (isBase : Bool),
      ∀ t ∈ commentsToCommentThreads fileChange comments isBase,
        t.collapsibleState = some .Expanded) ∧
    (∀ (document : TextDocument) (prNumber : Int) (fileChanges : List FileChangeNode)
        (inDraftMode : Bool) (info : CommentInfo),
      providePRDocumentComments document prNumber fileChanges inDraftMode = some info →
      ∀ t ∈ info.threads, t.collapsibleState = some .Expanded) := by
  refine ⟨?_, ?_, ?_⟩
  · intro hexp t hmem
    rw [getAddedOrUpdatedCommentThreads_eq] at hmem
    rcases List.mem_flatMap.mp hmem with ⟨u, hu, hau⟩
    rcases mem_addedOf.mp hau with ⟨_, rfl⟩
    cases hscheme : u.resource.scheme == "file" with
    | true =>
      simp only [hscheme, if_true]
    | false =>
      simp only [hscheme, Bool.false_eq_true, if_false]
      rw [hexp u hu]
  · intro fileChange comments isBase t hmem
    unfold commentsToCommentThreads at hmem
    rcases List.mem_filterMap.mp hmem with ⟨sec, _, hsome⟩
    cases hsec : sec.2 with
    | nil => rw [hsec] at hsome; simp at hsome
    | cons first rest =>
      rw [hsec] at hsome
      by_cases hneg : (if fileChange.isPartial then
          getPositionInDiff first fileChange.diffHunks isBase
        else getAbsolutePosition first fileChange.diffHunks isBase) < 0
      · simp only [hneg, if_true] at hsome
        cases hsome
      · simp only [hneg, if_false] at hsome
        have := congrArg CommentThread.collapsibleState (Option.some.inj hsome)
        exact this.symm ▸ rfl
  · intro document prNumber fileChanges inDraftMode info h t ht
    cases hu : fromPRUri document.uri with
    | none =>
      simp only [providePRDocumentComments, hu] at h
      exact Option.noConfusion h
    | some params =>
      by_cases hpr : params.prNumber = prNumber
      · cases hfind : fileChanges.find? (fun change => fileNameOf change == params.fileName) with
        | none =>
          simp only [providePRDocumentComments, hu, hfind, hpr] at h
          simp at h
        | some node =>
          cases node with
          | remote a b =>
            simp only [providePRDocumentComments, hu, hfind, hpr] at h
            simp at h
          | inMem fileChange =>
            rw [providePRDocumentComments_eval document prNumber fileChanges inDraftMode
              params fileChange hu hpr hfind] at h
            have hinfo := Option.some.inj h
            subst hinfo
            cases hemp : fileChange.comments.isEmpty with
            | true =>
              simp only [hemp, if_true] at ht
              simp at ht
            | false =>
              simp only [hemp, Bool.false_eq_true, if_false] at ht
              rcases List.mem_filterMap.mp ht with ⟨sec, _, hsome⟩
              cases hsec : sec.2 with
              | nil => rw [hsec] at hsome; simp at hsome
              | cons first rest =>
                rw [hsec] at hsome
                by_cases hneg : (if fileChange.isPartial then
                    getPositionInDiff first fileChange.diffHunks params.isBase
                  else getAbsolutePosition first fileChange.diffHunks params.isBase) < 0
                · simp only [hneg, if_true] at hsome
                  cases hsome
                · simp only [hneg, if_false] at hsome
                  have := congrArg CommentThread.collapsibleState (Option.some.inj hsome)
                  exact this.symm ▸ rfl
      · simp only [providePRDocumentComments, hu, hpr] at h
        simp [hpr] at h

/-- C8: reconciliation is deterministic and decides membership by thread and
comment identity data alone.  Running either computation twice on the same
generations yields the same result; the removed set is unchanged when the new
generation is replaced by any list with the same identity sequence; and the
added/changed sets are unchanged when the old generation is replaced by any
list with the same identities, member identities and member bodies. -/
theorem c8_reconciliation_deterministic
    (oldCommentThreads oldCommentThreads' newCommentThreads newCommentThreads' :
      List CommentThread) :
    (getRemovedCommentThreads oldCommentThreads newCommentThreads =
        getRemovedCommentThreads oldCommentThreads newCommentThreads ∧
      getAddedOrUpdatedCommentThreads oldCommentThreads newCommentThreads =
        getAddedOrUpdatedCommentThreads oldCommentThreads newCommentThreads) ∧
    (newCommentThreads.map CommentThread.threadId =
        newCommentThreads'.map CommentThread.threadId →
      getRemovedCommentThreads oldCommentThreads newCommentThreads =
        getRemovedCommentThreads oldCommentThreads newCommentThreads') ∧
    (oldCommentThreads.map threadKey = oldCommentThreads'.map threadKey →
      getAddedOrUpdatedCommentThreads oldCommentThreads newCommentThreads =
        getAddedOrUpdatedCommentThreads oldCommentThreads' newCommentThreads) := by
  refine ⟨⟨rfl, rfl⟩, ?_, ?_⟩
  · intro h
    unfold getRemovedCommentThreads
    apply List.filter_congr
    intro t _
    have e1 := map_filter_key CommentThread.threadId (fun k => k == t.threadId)
      newCommentThreads
    have e2 := map_filter_key CommentThread.threadId (fun k => k == t.threadId)
      newCommentThreads'
    rw [h] at e1
    have h1 : (newCommentThreads.filter (fun n => n.threadId == t.threadId)).map
          CommentThread.threadId
        = (newCommentThreads'.filter (fun n => n.threadId == t.threadId)).map
          CommentThread.threadId :=
      e1.trans e2.symm
    have i1 := isEmpty_map CommentThread.threadId
      (newCommentThreads.filter (fun n => n.threadId == t.threadId))
    have i2 := isEmpty_map CommentThread.threadId
      (newCommentThreads'.filter (fun n => n.threadId == t.threadId))
    rw [← i1, ← i2, h1]
  · intro h
    rw [getAddedOrUpdatedCommentThreads_eq, getAddedOrUpdatedCommentThreads_eq]
    have ha : newCommentThreads.flatMap (addedOf oldCommentThreads)
        = newCommentThreads.flatMap (addedOf oldCommentThreads') :=
      List.flatMap_congr (fun u _ => addedOf_congr u h)
    have hc : newCommentThreads.flatMap (changedOf oldCommentThreads)
        = newCommentThreads.flatMap (changedOf oldCommentThreads') :=
      List.flatMap_congr (fun u _ => changedOf_congr u h)
    rw [ha, hc]

/-- C7: when deleteDraft's per-file worker calculateChangedAndRemovedThreads
strips a deleted review's comments from the current threads, a thread all of
whose members are deleted is reported in removed with an empty member list and
never in changed, and a thread with at least one surviving member is reported
in changed (with exactly the survivors) and never in removed; every removed
thread has an empty member list and every changed thread a non-empty one. -/
theorem c7_deleteDraft_removed_vs_changed (fileChange : InMemFileChange)
    (deletedComments : List Comment) (isBase : Bool) :
    (∀ t ∈ (calculateChangedAndRemovedThreads fileChange deletedComments isBase).2,
        t.comments = []) ∧
    (∀ t ∈ (calculateChangedAndRemovedThreads fileChange deletedComments isBase).1,
        t.comments ≠ []) ∧
    (∀ t ∈ commentsToCommentThreads fileChange fileChange.comments isBase,
      (survivorsOf deletedComments t = [] →
        { t with comments := survivorsOf deletedComments t } ∈
          (calculateChangedAndRemovedThreads fileChange deletedComments isBase).2 ∧
        { t with comments := survivorsOf deletedComments t } ∉
          (calculateChangedAndRemovedThreads fileChange deletedComments isBase).1) ∧
      (survivorsOf deletedComments t ≠ [] →
        { t with comments := survivorsOf deletedComments t } ∈
          (calculateChangedAndRemovedThreads fileChange deletedComments isBase).1 ∧
        { t with comments := survivorsOf deletedComments t } ∉
          (calculateChangedAndRemovedThreads fileChange deletedComments isBase).2)) := by
  have hrem : ∀ t ∈ (calculateChangedAndRemovedThreads fileChange deletedComments isBase).2,
      t.comments = [] := by
    intro t hmem
    rw [calculateChangedAndRemovedThreads_eq] at hmem
    rcases List.mem_flatMap.mp hmem with ⟨u, _, hru⟩
    unfold removedOfDeleted at hru
    cases hemp : (survivorsOf deletedComments u).isEmpty with
    | false => rw [hemp] at hru; simp at hru
    | true =>
      rw [hemp] at hru
      simp only [if_true] at hru
      have ht : t = { u with comments := survivorsOf deletedComments u } := by
        simpa using hru
      rw [ht]
      exact List.isEmpty_iff.mp hemp
  have hchg : ∀ t ∈ (calculateChangedAndRemovedThreads fileChange deletedComments isBase).1,
      t.comments ≠ [] := by
    intro t hmem
    rw [calculateChangedAndRemovedThreads_eq] at hmem
    rcases List.mem_flatMap.mp hmem with ⟨u, _, hcu⟩
    unfold changedOfDeleted at hcu
    cases hemp : (survivorsOf deletedComments u).isEmpty with
    | true => rw [hemp] at hcu; simp at hcu
    | false =>
      rw [hemp] at hcu
      simp only [Bool.false_eq_true, if_false] at hcu
      have ht : t = { u with comments := survivorsOf deletedComments u } := by
        simpa using hcu
      rw [ht]
      show survivorsOf deletedComments u ≠ []
      intro hnil
      rw [hnil] at hemp
      simp at hemp
  refine ⟨hrem, hchg, ?_⟩
  intro t hthread
  constructor
  · intro hsurv
    constructor
    · rw [calculateChangedAndRemovedThreads_eq]
      apply List.mem_flatMap.mpr
      refine ⟨t, hthread, ?_⟩
      unfold removedOfDeleted
      have hemp : (survivorsOf deletedComments t).isEmpty = true := by
        rw [hsurv]; rfl
      rw [hemp]
      simp
    · intro hmem
      have := hchg _ hmem
      apply this
      show survivorsOf deletedComments t = []
      exact hsurv
  · intro hsurv
    constructor
    · rw [calculateChangedAndRemovedThreads_eq]
      apply List.mem_flatMap.mpr
      refine ⟨t, hthread, ?_⟩
      unfold changedOfDeleted
      have hemp : (survivorsOf deletedComments t).isEmpty = false := by
        cases he : (survivorsOf deletedComments t).isEmpty with
        | true => exact absurd (List.isEmpty_iff.mp he) hsurv
        | false => rfl
      rw [hemp]
      simp
    · intro hmem
      have := hrem _ hmem
      exact hsurv this

/-- C5: for a pr document whose parameters match and whose file change is an
in-memory change, the computed commenting ranges are a single range covering
the whole document when the change is partial, and otherwise exactly one range
per hunk, starting at the zero-based old (base side) or new (head side)
starting line and extending by the zero-based old or new line count. -/
theorem c5_commenting_ranges (document : TextDocument) (prNumber : Int)
    (fileChanges : List FileChangeNode) (inDraftMode : Bool) (params : PRUriParams)
    (fileChange : InMemFileChange)
    (hu : fromPRUri document.uri = some params)
    (hpr : params.prNumber = prNumber)
    (hfind : fileChanges.find? (fun change => fileNameOf change == params.fileName)
      = some (FileChangeNode.inMem fileChange)) :
    ∃ info, providePRDocumentComments document prNumber fileChanges inDraftMode = some info ∧
      info.commentingRanges =
        (if fileChange.isPartial then
          [{ startLine := 0, startCharacter := 0,
             endLine := document.lineCount, endCharacter := 0 }]
        else
          fileChange.diffHunks.map (fun diffHunk =>
            let startingLine :=
              if params.isBase then getZeroBased diffHunk.oldLineNumber
              else getZeroBased diffHunk.newLineNumber
            let length :=
              if params.isBase then getZeroBased diffHunk.oldLength
              else getZeroBased diffHunk.newLength
            { startLine := startingLine, startCharacter := 0,
              endLine := startingLine + length, endCharacter := 0 })) :=
  ⟨_, providePRDocumentComments_eval document prNumber fileChanges inDraftMode
    params fileChange hu hpr hfind, rfl⟩

/-- C6: for a file change that is partial, added or deleted, the document
content served for it is the newline-join of the diff line texts in hunk
order, keeping exactly the context and delete lines on the base side and
exactly the context and add lines on the head side, control lines excluded on
both sides. -/
theorem c6_content_from_diff_hunks (showAtCommit : String → String → String)
    (getModifiedContentFromDiffHunk : String → String → String)
    (repositoryRootPath : String) (fileChanges : List FileChangeNode) (uri : Uri)
    (params : PRUriParams) (fileChange : InMemFileChange) (rest : List FileChangeNode)
    (hu : fromPRUri uri = some params)
    (hfil : fileChanges.filter (fun contentChange =>
        match contentChange with
        | .inMem fc => fc.fileName == params.fileName
        | .remote _ _ => false) = FileChangeNode.inMem fileChange :: rest)
    (hkind : fileChange.isPartial = true ∨ fileChange.status = GitChangeType.ADD ∨
      fileChange.status = GitChangeType.DELETE) :
    provideDocumentContent showAtCommit getModifiedContentFromDiffHunk repositoryRootPath
        fileChanges uri =
      String.intercalate "\n"
        (((fileChange.diffHunks.flatMap DiffHunk.diffLines).filter
            (if params.isBase then keptOnBase else keptOnHead)).map DiffLine.text) := by
  have hread : (fileChange.isPartial || fileChange.status == GitChangeType.ADD
      || fileChange.status == GitChangeType.DELETE) = true := by
    rcases hkind with h | h | h
    · simp [h]
    · simp [h]
    · simp [h]
  simp only [provideDocumentContent, hu, hfil, hread, if_true]
  cases hbase : params.isBase with
  | true => simp [leftLines_eq]
  | false => simp [rightLines_eq]

/-- C9 (amended): a missing file change is surfaced synchronously as an error
by edit, delete and reply, and a missing comment is surfaced as an error by
edit and reply; deleteComment alone silently ignores a missing comment (no
error, no splice).  In every one of these cases the file-change list is
returned exactly as it was — no partial mutation precedes error detection. -/
theorem c9_not_found_handling (fileChanges : List FileChangeNode) (uri : Uri)
    (commentId : String) (text : String) (editReviewComment : Comment → String → Comment)
    (thread : CommentThread) (createCommentReply : String → Comment → Comment) :
    (∀ e, findMatchingFileNode fileChanges uri = .error e →
      editComment fileChanges uri commentId text editReviewComment = (fileChanges, some e) ∧
      deleteComment fileChanges uri commentId = (fileChanges, some e) ∧
      replyToCommentThread fileChanges uri thread text createCommentReply
        = (fileChanges, some e, none)) ∧
    (∀ fileChange, findMatchingFileNode fileChanges uri = .ok fileChange →
      ((∀ c ∈ fileChange.comments, toString c.id ≠ commentId) →
        editComment fileChanges uri commentId text editReviewComment
          = (fileChanges, some "Unable to find comment") ∧
        deleteComment fileChanges uri commentId = (fileChanges, none)) ∧
      ((∀ c ∈ fileChange.comments, toString c.id ≠ thread.threadId) →
        replyToCommentThread fileChanges uri thread text createCommentReply
          = (fileChanges, some "Unable to find thread to respond to.", none))) := by
  constructor
  · intro e he
    refine ⟨?_, ?_, ?_⟩
    · simp only [editComment, he]
    · simp only [deleteComment, he]
    · simp only [replyToCommentThread, he, formatError]
  · intro fileChange hok
    constructor
    · intro habsent
      have hfind : fileChange.comments.find? (fun c => toString c.id == commentId) = none := by
        rw [List.find?_eq_none]
        intro c hc
        simp [habsent c hc]
      have hfindIdx : fileChange.comments.findIdx? (fun c => toString c.id == commentId)
          = none := by
        rw [List.findIdx?_eq_none_iff]
        intro c hc
        simp [habsent c hc]
      constructor
      · simp only [editComment, hok, hfind]
      · simp only [deleteComment, hok, hfindIdx]
    · intro habsent
      have hfind : fileChange.comments.find? (fun c => toString c.id == thread.threadId)
          = none := by
        rw [List.find?_eq_none]
        intro c hc
        simp [habsent c hc]
      simp only [replyToCommentThread, hok, hfind, formatError]

/-- C9 counterexample: the claim says a delete with no matching comment is
surfaced synchronously as an error, but deleteComment on a file change whose
comment list is empty reports no error at all (and leaves the state
unchanged): the error component of the result is none. -/
theorem c9_counterexample :
    deleteComment [FileChangeNode.inMem (sampleFileChange [])] (samplePRUri false) "1"
      = ([FileChangeNode.inMem (sampleFileChange [])], none) := by
  rfl

/-- C10: for a valid new-comment request, a selected line that maps to a
negative diff position makes createNewCommentThread fail with an error and
leave the file-change list unchanged; with a non-negative position and a
successful remote create, the new comment is appended to the file's comment
list and the returned thread's identity is the new comment's identity with
exactly that one member. -/
theorem c10_create_new_comment_thread (prNumber : Int)
    (fileChanges : List FileChangeNode) (document : TextDocument) (range : VSRange)
    (text : String) (createComment : String → String → Int → Comment)
    (params : PRUriParams) (fileChange : InMemFileChange)
    (hu : fromPRUri document.uri = some params)
    (hpr : params.prNumber = prNumber)
    (hok : findMatchingFileNode fileChanges document.uri = .ok fileChange) :
    (mapHeadLineToDiffHunkPosition fileChange.diffHunks "" (range.startLine + 1)
        params.isBase < 0 →
      createNewCommentThread prNumber fileChanges document range text createComment
        = (fileChanges, .error "Comment position cannot be negative")) ∧
    (0 ≤ mapHeadLineToDiffHunkPosition fileChange.diffHunks "" (range.startLine + 1)
        params.isBase →
      createNewCommentThread prNumber fileChanges document range text createComment
        = (setComments fileChange.fileName
            (fileChange.comments ++ [createComment text params.fileName
              (mapHeadLineToDiffHunkPosition fileChange.diffHunks "" (range.startLine + 1)
                params.isBase)]) fileChanges,
           .ok (some
             { threadId := toString (createComment text params.fileName
                 (mapHeadLineToDiffHunkPosition fileChange.diffHunks "" (range.startLine + 1)
                   params.isBase)).id
               resource := document.uri
               range := range
               comments := [convertComment (createComment text params.fileName
                 (mapHeadLineToDiffHunkPosition fileChange.diffHunks "" (range.startLine + 1)
                   params.isBase))]
               collapsibleState := none }))) := by
  constructor
  · intro hneg
    simp only [createNewCommentThread, hu, hpr, hok, formatError]
    simp [hneg]
  · intro hpos
    have hneg : ¬ (mapHeadLineToDiffHunkPosition fileChange.diffHunks ""
        (range.startLine + 1) params.isBase < 0) := by omega
    simp only [createNewCommentThread, hu, hpr, hok, formatError]
    simp [hneg, convertComment]

/-! ## Witnesses -/

/-- Witness for C1 at a two-comment thread on head side. -/
theorem c1_grouping_witness :
    commentsToCommentThreads
        (sampleFileChange [mkComment 100 (some 1) "a", mkComment 101 (some 1) "b"])
        [mkComment 100 (some 1) "a", mkComment 101 (some 1) "b"] false
      = commentThreadsSpec
        (sampleFileChange [mkComment 100 (some 1) "a", mkComment 101 (some 1) "b"])
        [mkComment 100 (some 1) "a", mkComment 101 (some 1) "b"] false ∧
    ∃ c ∈ [mkComment 100 (some 1) "a", mkComment 101 (some 1) "b"],
      c.position.isSome ∧ sampleVSComment "100" "a" = convertComment c :=
  ⟨(c1_grouping_partitions_by_position
      (sampleFileChange [mkComment 100 (some 1) "a", mkComment 101 (some 1) "b"])
      [mkComment 100 (some 1) "a", mkComment 101 (some 1) "b"] false).1,
   (c1_grouping_partitions_by_position
      (sampleFileChange [mkComment 100 (some 1) "a", mkComment 101 (some 1) "b"])
      [mkComment 100 (some 1) "a", mkComment 101 (some 1) "b"] false).2
     { threadId := "100", resource := samplePRUri false,
       range := { startLine := 0, startCharacter := 0, endLine := 0, endCharacter := 0 },
       comments := [sampleVSComment "100" "a", sampleVSComment "101" "b"],
       collapsibleState := some .Expanded }
     (by decide) (sampleVSComment "100" "a") (by decide)⟩

/-- Witness for C2: an edited body makes the thread changed. -/
theorem c2_changed_witness :
    (([sampleThread "1" sampleFileUri [sampleVSComment "1" "a"]].map
        CommentThread.threadId).Nodup) ∧
    sampleThread "1" sampleFileUri [sampleVSComment "1" "b"] ∈
      (getAddedOrUpdatedCommentThreads
        [sampleThread "1" sampleFileUri [sampleVSComment "1" "a"]]
        [sampleThread "1" sampleFileUri [sampleVSComment "1" "b"]]).2 :=
  ⟨by decide,
   (c2_changed_iff [sampleThread "1" sampleFileUri [sampleVSComment "1" "a"]]
      [sampleThread "1" sampleFileUri [sampleVSComment "1" "b"]]
      (sampleThread "1" sampleFileUri [sampleVSComment "1" "b"])
      (sampleThread "1" sampleFileUri [sampleVSComment "1" "a"])
      (by decide) (by decide) (by decide) (by decide)).mpr (by decide)⟩

/-- Witness for C3: an old thread with no new counterpart is removed. -/
theorem c3_partition_witness :
    sampleThread "1" sampleFileUri [] ∈
      getRemovedCommentThreads [sampleThread "1" sampleFileUri []]
        [sampleThread "2" sampleFileUri []] :=
  ((c3_reconciliation_is_partition [sampleThread "1" sampleFileUri []]
      [sampleThread "2" sampleFileUri []]).1 (sampleThread "1" sampleFileUri [])).mpr
    (by decide)

/-- Witness for C4: an added thread on a plain file resource is collapsed. -/
theorem c4_collapse_witness :
    ({ sampleThread "9" sampleFileUri [] with
        collapsibleState := some CommentThreadCollapsibleState.Collapsed }).collapsibleState
      = some (if ({ sampleThread "9" sampleFileUri [] with
            collapsibleState := some CommentThreadCollapsibleState.Collapsed
          }).resource.scheme == "file"
        then CommentThreadCollapsibleState.Collapsed
        else CommentThreadCollapsibleState.Expanded) :=
  (c4_added_collapse_state [] [sampleThread "9" sampleFileUri []]).1 (by decide)
    { sampleThread "9" sampleFileUri [] with
        collapsibleState := some CommentThreadCollapsibleState.Collapsed }
    (by decide)

/-- Witness for C5 on a non-partial sample change. -/
theorem c5_ranges_witness :
    ∃ info, providePRDocumentComments (sampleDoc false) 7
        [FileChangeNode.inMem (sampleFileChange [])] false = some info ∧
      info.commentingRanges =
        (if (sampleFileChange []).isPartial then
          [{ startLine := 0, startCharacter := 0,
             endLine := (sampleDoc false).lineCount, endCharacter := 0 }]
        else
          (sampleFileChange []).diffHunks.map (fun diffHunk =>
            let startingLine :=
              if (samplePRParams false).isBase then getZeroBased diffHunk.oldLineNumber
              else getZeroBased diffHunk.newLineNumber
            let length :=
              if (samplePRParams false).isBase then getZeroBased diffHunk.oldLength
              else getZeroBased diffHunk.newLength
            { startLine := startingLine, startCharacter := 0,
              endLine := startingLine + length, endCharacter := 0 })) :=
  c5_commenting_ranges (sampleDoc false) 7 [FileChangeNode.inMem (sampleFileChange [])]
    false (samplePRParams false) (sampleFileChange []) rfl rfl rfl

/-- Witness for C6 on a partial sample change, head side. -/
theorem c6_content_witness :
    provideDocumentContent (fun _ _ => "") (fun _ _ => "") "/repo"
        [FileChangeNode.inMem { sampleFileChange [] with isPartial := true }]
        (samplePRUri false) =
      String.intercalate "\n"
        (((({ sampleFileChange [] with isPartial := true }).diffHunks.flatMap
            DiffHunk.diffLines).filter
              (if (samplePRParams false).isBase then keptOnBase else keptOnHead)).map
          DiffLine.text) :=
  c6_content_from_diff_hunks (fun _ _ => "") (fun _ _ => "") "/repo"
    [FileChangeNode.inMem { sampleFileChange [] with isPartial := true }]
    (samplePRUri false) (samplePRParams false)
    { sampleFileChange [] with isPartial := true } [] rfl (by decide) (Or.inl rfl)

/-- Witness for C7: deleting the only comment of a thread reports it removed
with an empty member list and never changed. -/
theorem c7_removed_witness :
    ({ threadId := "100", resource := samplePRUri false,
       range := { startLine := 0, startCharacter := 0, endLine := 0, endCharacter := 0 },
       comments := ([] : List VSComment),
       collapsibleState := some CommentThreadCollapsibleState.Expanded : CommentThread } ∈
      (calculateChangedAndRemovedThreads (sampleFileChange [mkComment 100 (some 1) "a"])
        [mkComment 100 (some 1) "a"] false).2) ∧
    ({ threadId := "100", resource := samplePRUri false,
       range := { startLine := 0, startCharacter := 0, endLine := 0, endCharacter := 0 },
       comments := ([] : List VSComment),
       collapsibleState := some CommentThreadCollapsibleState.Expanded : CommentThread } ∉
      (calculateChangedAndRemovedThreads (sampleFileChange [mkComment 100 (some 1) "a"])
        [mkComment 100 (some 1) "a"] false).1) :=
  ((c7_deleteDraft_removed_vs_changed (sampleFileChange [mkComment 100 (some 1) "a"])
      [mkComment 100 (some 1) "a"] false).2.2
    { threadId := "100", resource := samplePRUri false,
      range := { startLine := 0, startCharacter := 0, endLine := 0, endCharacter := 0 },
      comments := [sampleVSComment "100" "a"],
      collapsibleState := some CommentThreadCollapsibleState.Expanded }
    (by decide)).1 (by decide)

/-- Witness for C8: generations agreeing on identity data reconcile alike. -/
theorem c8_determinism_witness :
    getAddedOrUpdatedCommentThreads
        [sampleThread "1" sampleFileUri [sampleVSComment "1" "a"]]
        [sampleThread "1" sampleFileUri [sampleVSComment "1" "b"]]
      = getAddedOrUpdatedCommentThreads
        [{ sampleThread "1" sampleFileUri [sampleVSComment "1" "a"] with
            range := { startLine := 5, startCharacter := 0,
                       endLine := 5, endCharacter := 0 } }]
        [sampleThread "1" sampleFileUri [sampleVSComment "1" "b"]] :=
  (c8_reconciliation_deterministic
    [sampleThread "1" sampleFileUri [sampleVSComment "1" "a"]]
    [{ sampleThread "1" sampleFileUri [sampleVSComment "1" "a"] with
        range := { startLine := 5, startCharacter := 0,
                   endLine := 5, endCharacter := 0 } }]
    [sampleThread "1" sampleFileUri [sampleVSComment "1" "b"]]
    [sampleThread "1" sampleFileUri [sampleVSComment "1" "b"]]).2.2 (by decide)

/-- Witness for C9 (amended): with the file present and the comment id absent,
edit errors out and delete is silent, both leaving the state unchanged. -/
theorem c9_handling_witness :
    (editComment [FileChangeNode.inMem (sampleFileChange [])] (samplePRUri false) "1" "x"
        (fun c _ => c)
      = ([FileChangeNode.inMem (sampleFileChange [])], some "Unable to find comment")) ∧
    (deleteComment [FileChangeNode.inMem (sampleFileChange [])] (samplePRUri false) "1"
      = ([FileChangeNode.inMem (sampleFileChange [])], none)) :=
  ((c9_not_found_handling [FileChangeNode.inMem (sampleFileChange [])] (samplePRUri false)
      "1" "x" (fun c _ => c) (sampleThread "1" sampleFileUri []) (fun _ c => c)).2
    (sampleFileChange []) rfl).1 (by decide)

/-- Witness for C10: a valid request on a commentable line appends the comment
and returns a one-member thread keyed by the new comment's id. -/
theorem c10_create_witness :
    0 ≤ mapHeadLineToDiffHunkPosition (sampleFileChange []).diffHunks "" 1 false ∧
    createNewCommentThread 7 [FileChangeNode.inMem (sampleFileChange [])] (sampleDoc false)
        { startLine := 0, startCharacter := 0, endLine := 0, endCharacter := 0 } "hello"
        (fun _ _ p => mkComment 200 (some p) "hello")
      = ([FileChangeNode.inMem (sampleFileChange [mkComment 200 (some 1) "hello"])],
         Except.ok (some
           { threadId := "200", resource := samplePRUri false,
             range := { startLine := 0, startCharacter := 0,
                        endLine := 0, endCharacter := 0 },
             comments := [sampleVSComment "200" "hello"], collapsibleState := none })) :=
  ⟨by decide,
   (c10_create_new_comment_thread 7 [FileChangeNode.inMem (sampleFileChange [])]
      (sampleDoc false)
      { startLine := 0, startCharacter := 0, endLine := 0, endCharacter := 0 } "hello"
      (fun _ _ p => mkComment 200 (some p) "hello")
      (samplePRParams false) (sampleFileChange []) rfl rfl rfl).2 (by decide)⟩
